import Mathlib

/-!
The match engine of mesmerice (`main.go`).

A shallow embedding of the Go server's match engine (`initGame`, `update`,
`Game.endGame`) and connection reader (`reader`), followed by theorems about it.

Modelling conventions
* Go `byte` values are natural numbers; `bPress + '0'` is taken modulo 256.
* Pointers are indices into tables held by `World`: `*LList` into `heap`,
  `*time.Timer` into `timers`, `*Player` into `players`.  A `*LList` may be
  `nil` (`none`); allocation appends to the table.  Dereferencing a pointer
  that names no entry is the Go nil-dereference panic and yields `none`.
* `Writer.write` appends `(player, text)` to `out`; a Writer belongs to one Player.
* An unbuffered channel is the list of values offered by blocked senders plus
  a closed flag.  Closing a closed channel and sending on a closed channel
  panic (`none`).
* `select` in the match loop is driven by a list of `Ev` naming the case taken.
* Durations are nanoseconds, as in package `time`.
* Console output (`fmt.Println`) is not modelled.
-/

namespace Mesmerice

/-! ## Constants (main.go 26-40) -/

/-- Reason: wrong press or timer ran out. -/
def INGAME_C : Nat := 1
/-- Reason: the current player disconnected. -/
def DC_C : Nat := 2
/-- Reason: the opposing player disconnected. -/
def DC_O : Nat := 3
/-- Action value a reader sends for a disconnect. -/
def DC : Nat := 3

/-- The duration `time.Second`, in nanoseconds. -/
def Second : Nat := 1000000000

/-! ## Data model (main.go 42-67) -/

/-- Linked list node for button sequences. -/
structure LList where
  val : Nat
  next : Option Nat
deriving DecidableEq, Repr

/-- A `chan byte`: values offered by blocked senders, oldest first. -/
structure Chan where
  buf : List Nat
  closed : Bool
deriving DecidableEq, Repr

/-- Player structure; the `wr` field is represented by the player's entries in `World.out`. -/
structure Player where
  req : Chan
  inGame : Bool
deriving DecidableEq, Repr

/-- A `time.Timer`: the duration it was last armed with, and whether `Stop` was called. -/
structure Timer where
  d : Nat
  stopped : Bool
deriving DecidableEq, Repr

/-- Game structure. -/
structure Game where
  currPlay : Nat
  oppPlay : Nat
  timer : Nat
  seq : Option Nat
  prog : Option Nat
deriving DecidableEq, Repr

/-- Everything outside the `Game` value that the engine reads or writes. -/
structure World where
  heap : List LList
  timers : List Timer
  players : List Player
  out : List (Nat × String)
  queue : List Nat
deriving DecidableEq, Repr

/-! ## Primitive operations -/

/-- The method `Writer.write` called through player `p` (main.go 69-73). -/
def write (w : World) (p : Nat) (msg : String) : Option World :=
  if p < w.players.length then some { w with out := w.out ++ [(p, msg)] } else none

/-- Receive without blocking: a pending value, the zero value of a closed channel, or nothing. -/
def tryRecv (c : Chan) : Option (Nat × Chan) :=
  match c.buf with
  | v :: rest => some (v, { c with buf := rest })
  | [] => if c.closed then some (0, c) else none

/-- A `select` with a `default` branch on `p.req`: the received value, if any. -/
def pollReq (w : World) (p : Nat) : Option (Option Nat × World) :=
  match w.players[p]? with
  | none => none
  | some pl =>
    match tryRecv pl.req with
    | some (c, ch) => some (some c, { w with players := w.players.set p { pl with req := ch } })
    | none => some (none, w)

/-- A receive `<-p.req` that is ready; `none` when nothing can be received. -/
def recvReq (w : World) (p : Nat) : Option (Nat × World) :=
  match w.players[p]? with
  | none => none
  | some pl =>
    match tryRecv pl.req with
    | some (c, ch) => some (c, { w with players := w.players.set p { pl with req := ch } })
    | none => none

/-- The send `p.req <- v`. -/
def sendReq (w : World) (p : Nat) (v : Nat) : Option World :=
  match w.players[p]? with
  | none => none
  | some pl =>
    if pl.req.closed then none
    else some { w with players := w.players.set p { pl with req := { pl.req with buf := pl.req.buf ++ [v] } } }

/-- The call `close(p.req)`. -/
def closeReq (w : World) (p : Nat) : Option World :=
  match w.players[p]? with
  | none => none
  | some pl =>
    if pl.req.closed then none
    else some { w with players := w.players.set p { pl with req := { pl.req with closed := true } } }

/-- The assignment `p.inGame = b`. -/
def setInGame (w : World) (p : Nat) (b : Bool) : Option World :=
  match w.players[p]? with
  | none => none
  | some pl => some { w with players := w.players.set p { pl with inGame := b } }

/-- The call `t.Reset(d)`. -/
def resetTimer (w : World) (t : Nat) (d : Nat) : Option World :=
  if t < w.timers.length then
    some { w with timers := w.timers.set t { d := d, stopped := false } }
  else none

/-- The call `t.Stop()`. -/
def stopTimer (w : World) (t : Nat) : Option World :=
  match w.timers[t]? with
  | none => none
  | some tm => some { w with timers := w.timers.set t { tm with stopped := true } }

/-- The text `"button" + string(bPress + '0')`. -/
def buttonMsg (bPress : Nat) : String :=
  "button" ++ String.singleton (Char.ofNat ((bPress + 48) % 256))

/-! ## `update` (main.go 143-165) -/

/-- The function `update`: the new world, the new game and the returned byte. -/
def update (w : World) (g : Game) (bPress : Nat) : Option (World × Game × Nat) :=
  -- send press to opponent
  match write w g.oppPlay (buttonMsg bPress) with
  | none => none
  | some w1 =>
    match g.prog with
    | none => none
    | some a =>
      match w1.heap[a]? with
      | none => none
      | some n =>
        if n.val = 3 then
          -- new round: g.prog.next = &LList(val: 3); g.prog.val = bPress; g.prog = g.seq
          let fresh := w1.heap.length
          let h1 := w1.heap ++ [{ val := 3, next := none }]
          let h2 := h1.set a { val := n.val, next := some fresh }
          let h3 := h2.set a { val := bPress, next := some fresh }
          -- swap turns, then reset the timer
          match resetTimer { w1 with heap := h3 } g.timer Second with
          | none => none
          | some w2 =>
            some (w2, { g with prog := g.seq, currPlay := g.oppPlay, oppPlay := g.currPlay }, 0)
        else if n.val = bPress then
          -- correct
          match resetTimer w1 g.timer Second with
          | none => none
          | some w2 => some (w2, { g with prog := n.next }, 0)
        else
          -- incorrect
          some (w1, g, INGAME_C)

/-! ## `Game.endGame` (main.go 167-188) -/

/-- The `switch reason` of `endGame`. -/
def announce (w : World) (g : Game) (reason : Nat) : Option World :=
  if reason = INGAME_C then
    (write w g.currPlay "lose").bind fun w1 => write w1 g.oppPlay "win"
  else if reason = DC_C then write w g.oppPlay "win"
  else if reason = DC_O then write w g.currPlay "win"
  else some w

/-- The method `endGame`. -/
def endGame (w : World) (g : Game) (reason : Nat) : Option World :=
  (announce w g reason).bind fun w1 =>
  (closeReq w1 g.currPlay).bind fun w2 =>
  (closeReq w2 g.oppPlay).bind fun w3 =>
  (setInGame w3 g.currPlay false).bind fun w4 =>
  (setInGame w4 g.oppPlay false).bind fun w5 =>
  stopTimer w5 g.timer

/-! ## `initGame` (main.go 75-141) -/

/-- How the part of `initGame` before the loop ends. -/
inductive Start where
  | requeued (w : World)
  | started (w : World) (g : Game)
deriving DecidableEq, Repr

/-- Lines 75-112 of `initGame`: the two disconnect checks and the creation of the game. -/
def initGameStart (w : World) (p1 p2 : Nat) : Option Start :=
  match pollReq w p1 with
  | none => none
  | some (c1, wa) =>
    if c1 = some DC then some (.requeued { wa with queue := wa.queue ++ [p2] })
    else
      match pollReq wa p2 with
      | none => none
      | some (c2, wb) =>
        if c2 = some DC then some (.requeued { wb with queue := wb.queue ++ [p1] })
        else
          let g : Game :=
            { currPlay := p1, oppPlay := p2, timer := wb.timers.length,
              seq := some wb.heap.length, prog := some wb.heap.length }
          let wc : World :=
            { wb with timers := wb.timers ++ [{ d := 30 * Second, stopped := false }],
                      heap := wb.heap ++ [{ val := 3, next := none }] }
          (write wc g.currPlay "starty").bind fun w1 =>
          (write w1 g.oppPlay "startt").bind fun w2 =>
          (setInGame w2 g.currPlay true).bind fun w3 =>
          (setInGame w3 g.oppPlay true).bind fun w4 =>
          some (.started w4 g)

/-- The case of the loop's `select` that is taken. -/
inductive Ev where
  | timer
  | curr
  | opp
deriving DecidableEq, Repr

/-- One iteration of the `select` (main.go 115-133): the new value of `over` comes last. -/
def loopStep (w : World) (g : Game) (over : Nat) : Ev → Option (World × Game × Nat)
  | .timer => some (w, g, INGAME_C)
  | .curr =>
    match recvReq w g.currPlay with
    | none => none
    | some (action, w1) =>
      if action = DC then some (w1, g, DC_C) else update w1 g action
  | .opp =>
    match recvReq w g.oppPlay with
    | none => none
    | some (action, w1) =>
      if action = DC then some (w1, g, DC_O)
      else
        match update w1 g action with
        | none => none
        | some (w2, g2, _) => some (w2, g2, over)

/-- How far the loop got on a given list of events. -/
inductive LoopEnd where
  | waiting (w : World) (g : Game)
  | exited (w : World) (g : Game) (over : Nat)
deriving DecidableEq, Repr

/-- The `for` loop (main.go 114-138); `over` is 0 whenever an iteration starts. -/
def matchLoop (w : World) (g : Game) : List Ev → Option LoopEnd
  | [] => some (.waiting w g)
  | ev :: evs =>
    match loopStep w g 0 ev with
    | none => none
    | some (w1, g1, over) =>
      if over ≠ 0 then some (.exited w1 g1 over) else matchLoop w1 g1 evs

/-- The state in which a run of `initGame` is observed. -/
inductive Outcome where
  | requeued (w : World)
  | running (w : World) (g : Game)
  | ended (w : World) (reason : Nat)
deriving DecidableEq, Repr

/-- Lines 113-140: the loop followed by `g.endGame(over)`. -/
def playMatch (w : World) (g : Game) (evs : List Ev) : Option Outcome :=
  match matchLoop w g evs with
  | none => none
  | some (.waiting w1 g1) => some (.running w1 g1)
  | some (.exited w1 g1 over) => (endGame w1 g1 over).map fun w2 => .ended w2 over

/-- The function `initGame`, run against the events `evs`. -/
def initGame (w : World) (p1 p2 : Nat) (evs : List Ev) : Option Outcome :=
  match initGameStart w p1 p2 with
  | none => none
  | some (.requeued w1) => some (.requeued w1)
  | some (.started w1 g) => playMatch w1 g evs

/-! ## `reader` and the pairing loop (main.go 190-219, 246-250) -/

/-- Lines 192-193 of `reader`: a new Player is created and queued; its pointer is returned. -/
def connect (w : World) : World × Nat :=
  ({ w with players := w.players ++ [{ req := { buf := [], closed := false }, inGame := false }],
            queue := w.queue ++ [w.players.length] },
   w.players.length)

/-- The byte `p[6] - '0'` of a received text whose first seven characters are ASCII. -/
def decodeButton (m : String) : Nat :=
  ((m.data.getD 6 '0').toNat + 256 - 48) % 256

/-- One iteration of the reader loop (main.go 196-218) for player `pl`; `none` as message
is a failed `ReadMessage`.  The flag returned says whether the reader keeps reading. -/
def readerStep (w : World) (pl : Nat) : Option String → Option (World × Bool)
  | none =>
    match w.players[pl]? with
    | none => none
    | some p =>
      if p.inGame then (sendReq w pl DC).map fun w1 => (w1, false)
      else some (w, false)
  | some m =>
    if m = "here" then (write w pl "seen").map fun w1 => (w1, true)
    else if m = "button0" ∨ m = "button1" ∨ m = "button2" then
      match w.players[pl]? with
      | none => none
      | some p =>
        if p.inGame then (sendReq w pl (decodeButton m)).map fun w1 => (w1, true)
        else some (w, true)
    else some (w, true)

/-- The pairing loop's `initGame(<-queue, <-queue)`: the two Players taken, first one first. -/
def pair (w : World) : Option (World × Nat × Nat) :=
  match w.queue with
  | p1 :: p2 :: rest => some ({ w with queue := rest }, p1, p2)
  | _ => none

/-! ## `Writer.write` under interleaving (main.go 63-73) -/

/-- A `sync.Mutex`. -/
structure Mutex where
  locked : Bool
deriving DecidableEq, Repr

/-- Where one call of `write` stands.  The receiver of `write` is a `Writer` value, so a
call works on its own copy of the struct, the field `mu` included; the connection is
reached through the pointer `con` and stays shared. -/
inductive Call where
  | called
  | entered (mu : Mutex)
  | locked (mu : Mutex)
  | sending (mu : Mutex)
  | sent (mu : Mutex)
  | returned
deriving DecidableEq, Repr

/-- One Writer and two calls of `write` on it: the mutex stored in the Writer, the number
of calls of `WriteMessage` in progress on its connection, and the two calls. -/
structure Gate where
  mu : Mutex
  inFlight : Nat
  first : Call
  second : Call
deriving DecidableEq, Repr

/-- One step of a call of `write`, given the Writer's mutex and the sends in progress:
copy the receiver, `w.mu.Lock()` on the copy (not possible while the copy is locked),
enter `WriteMessage`, leave it, run the deferred `w.mu.Unlock()` on the copy. -/
def writeStep (mu : Mutex) (inFlight : Nat) : Call → Option (Call × Nat)
  | .called => some (.entered mu, inFlight)
  | .entered m => if m.locked then none else some (.locked { m with locked := true }, inFlight)
  | .locked m => some (.sending m, inFlight + 1)
  | .sending m => some (.sent m, inFlight - 1)
  | .sent _ => some (.returned, inFlight)
  | .returned => none

/-- The scheduler lets the first (`false`) or the second (`true`) call take a step. -/
def gateStep (s : Gate) (who : Bool) : Option Gate :=
  if who then
    (writeStep s.mu s.inFlight s.second).map fun r => { s with second := r.1, inFlight := r.2 }
  else
    (writeStep s.mu s.inFlight s.first).map fun r => { s with first := r.1, inFlight := r.2 }

/-- A schedule, step by step. -/
def gateRun (s : Gate) : List Bool → Option Gate
  | [] => some s
  | who :: rest =>
    match gateStep s who with
    | none => none
    | some s1 => gateRun s1 rest

/-- A Writer nobody is using, and two calls of `write` about to begin. -/
def freshGate : Gate :=
  { mu := { locked := false }, inFlight := 0, first := .called, second := .called }

/-! ## Describing a match state -/

/-- The nodes reached from pointer `p` are exactly `ptrs`, in order, they hold `vals`,
and the last one has a nil `next`. -/
def chain (h : List LList) : Option Nat → List Nat → List Nat → Prop
  | p, [], [] => p = none
  | p, a :: as, v :: vs =>
    p = some a ∧ (h[a]?).map (fun n => n.val) = some v ∧
      chain h ((h[a]?).bind fun n => n.next) as vs
  | _, _, _ => False

/-- The deadline budget: the duration the game's timer was last armed with. -/
def deadline (w : World) (g : Game) : Option Nat :=
  (w.timers[g.timer]?).map fun t => t.d

/-- A well-formed match state: the list at `g.seq` holds the confirmed values `vs`, each a
button value, then the open slot (value 3); the cursor `g.prog` is node `i` of that list;
both Players and the timer exist. -/
def MatchState (w : World) (g : Game) (vs : List Nat) (i : Nat) : Prop :=
  ∃ ptrs : List Nat,
    chain w.heap g.seq ptrs (vs ++ [3]) ∧ g.prog = ptrs[i]? ∧ i ≤ vs.length ∧
    (∀ v ∈ vs, v < 3) ∧
    g.currPlay < w.players.length ∧ g.oppPlay < w.players.length ∧
    g.timer < w.timers.length

/-- What a call of `update` leaves alone besides the heap and the timer. -/
def Pressed (w w2 : World) (g g2 : Game) (b : Nat) : Prop :=
  w2.players = w.players ∧ w2.queue = w.queue ∧
  w2.out = w.out ++ [(g.oppPlay, buttonMsg b)] ∧
  g2.timer = g.timer ∧ g2.seq = g.seq

/-- The presses of `update` in order, results collected: the calls go on after a rejected
press, as they do for presses of the non-active Player. -/
def feed (w : World) (g : Game) : List Nat → Option (World × Game × List Nat)
  | [] => some (w, g, [])
  | b :: bs =>
    match update w g b with
    | none => none
    | some (w1, g1, r) =>
      match feed w1 g1 bs with
      | none => none
      | some (w2, g2, rs) => some (w2, g2, r :: rs)

/-- The presses of the first `n` correct rounds on the values `xs`: round `j` replays
the first `j - 1` values and then presses value `j`. -/
def rounds (xs : List Nat) : Nat → List Nat
  | 0 => []
  | n + 1 => rounds xs n ++ xs.take (n + 1)

/-- A disconnect signal is the value the next receive on `p.req` yields. -/
def pendingDC (w : World) (p : Nat) : Prop :=
  (w.players[p]?).map (fun pl => pl.req.buf.head?) = some (some DC)

/-- Player `p` exists and carries the given `inGame` flag. -/
def flagIs (w : World) (p : Nat) (b : Bool) : Prop :=
  (w.players[p]?).map (fun pl => pl.inGame) = some b

/-- The channel `p.req` exists and has not been closed. -/
def reqOpen (w : World) (p : Nat) : Prop :=
  (w.players[p]?).map (fun pl => pl.req.closed) = some false

/-- A match in progress as `endGame` finds it: two distinct Players whose action
channels are open, and a timer. -/
def Playing (w : World) (g : Game) : Prop :=
  g.currPlay ≠ g.oppPlay ∧ reqOpen w g.currPlay ∧ reqOpen w g.oppPlay ∧
  g.timer < w.timers.length

instance (w : World) (p : Nat) : Decidable (pendingDC w p) := by
  unfold pendingDC; infer_instance

instance (w : World) (p : Nat) (b : Bool) : Decidable (flagIs w p b) := by
  unfold flagIs; infer_instance

instance (w : World) (p : Nat) : Decidable (reqOpen w p) := by
  unfold reqOpen; infer_instance

instance (w : World) (g : Game) : Decidable (Playing w g) := by
  unfold Playing; infer_instance

/-- The messages `endGame` writes for each reason, as its `switch` lists them. -/
def verdict (g : Game) (reason : Nat) : List (Nat × String) :=
  if reason = INGAME_C then [(g.currPlay, "lose"), (g.oppPlay, "win")]
  else if reason = DC_C then [(g.oppPlay, "win")]
  else if reason = DC_O then [(g.currPlay, "win")]
  else []

/-- The messages written between world `w` and the later world `w2`. -/
def sentSince (w w2 : World) : List (Nat × String) :=
  w2.out.drop w.out.length

/-- How many of the messages `ms` carry the text `t`. -/
def countText (ms : List (Nat × String)) (t : String) : Nat :=
  (ms.filter fun m => m.2 = t).length

/-- World `w1` differs from `w` at most in the action channel of Player `p`. -/
def ReqOnly (w w1 : World) (p : Nat) : Prop :=
  w1.heap = w.heap ∧ w1.timers = w.timers ∧ w1.out = w.out ∧ w1.queue = w.queue ∧
  w1.players.length = w.players.length ∧
  (∀ q : Nat, (w1.players[q]?).map (fun pl => pl.inGame) =
    (w.players[q]?).map (fun pl => pl.inGame)) ∧
  (∀ q : Nat, q ≠ p → w1.players[q]? = w.players[q]?)

/-- One delivery of the scenarios: the reader of Player `p` receives the text `m`, then the
match loop takes the `select` case of that Player. -/
def press (w : World) (g : Game) (p : Nat) (m : String) : Option (World × Game × Nat) :=
  match readerStep w p (some m) with
  | none => none
  | some (w1, _) => loopStep w1 g 0 (if p = g.currPlay then Ev.curr else Ev.opp)

/-- Every value waiting on the action channels of the two Players of `g` is one a reader
sends: a button value 0, 1, 2 or the disconnect value 3. -/
def Inputs (w : World) (g : Game) : Prop :=
  ∀ p : Nat, p = g.currPlay ∨ p = g.oppPlay →
    ∀ pl, w.players[p]? = some pl → ∀ v ∈ pl.req.buf, v ≤ 3

/-- The `select` case `ev` can be taken: the timer case always, a channel case when its
receive is ready. -/
def Ready (w : World) (g : Game) : Ev → Prop
  | .timer => True
  | .curr => (recvReq w g.currPlay).isSome = true
  | .opp => (recvReq w g.oppPlay).isSome = true

instance (w : World) (g : Game) (ev : Ev) : Decidable (Ready w g ev) := by
  cases ev <;> unfold Ready <;> infer_instance

/-- The events `evs` can be taken one after the other by the loop started in `w`, `g`. -/
def Sched : World → Game → List Ev → Prop
  | _, _, [] => True
  | w, g, ev :: evs =>
    Ready w g ev ∧ ∀ w1 g1, loopStep w g 0 ev = some (w1, g1, 0) → Sched w1 g1 evs

/-- The channel `p.req` exists and has been closed. -/
def reqClosed (w : World) (p : Nat) : Prop :=
  (w.players[p]?).map (fun pl => pl.req.closed) = some true

/-- The timer of `g` exists and has been stopped. -/
def timerStopped (w : World) (g : Game) : Prop :=
  (w.timers[g.timer]?).map (fun t => t.stopped) = some true

/-! ## Sample states -/

/-- The world before anyone has connected. -/
def emptyWorld : World :=
  { heap := [], timers := [], players := [], out := [], queue := [] }

/-- Two Players, 0 and 1, have connected and wait on the queue. -/
def lobby : World :=
  (connect (connect emptyWorld).1).1

/-- Two connected Players, 0 and 1, neither in a match. -/
def idleWorld : World :=
  { heap := [], timers := [],
    players := [⟨⟨[], false⟩, false⟩, ⟨⟨[], false⟩, false⟩],
    out := [], queue := [] }

/-- The world in which `initGame` has just started a match between Players 0 and 1. -/
def startWorld : World :=
  { heap := [⟨3, none⟩], timers := [⟨30 * Second, false⟩],
    players := [⟨⟨[], false⟩, true⟩, ⟨⟨[], false⟩, true⟩],
    out := [(0, "starty"), (1, "startt")], queue := [] }

/-- The game of `startWorld`. -/
def startGame : Game :=
  { currPlay := 0, oppPlay := 1, timer := 0, seq := some 0, prog := some 0 }

/-- A match with confirmed sequence 1, 2 in which Player 0 is replaying and has
confirmed the first value. -/
def midWorld : World :=
  { heap := [⟨1, some 1⟩, ⟨2, some 2⟩, ⟨3, none⟩], timers := [⟨Second, false⟩],
    players := [⟨⟨[], false⟩, true⟩, ⟨⟨[], false⟩, true⟩],
    out := [], queue := [] }

/-- The game of `midWorld`. -/
def midGame : Game :=
  { currPlay := 0, oppPlay := 1, timer := 0, seq := some 0, prog := some 1 }

/-- The world `w` with value `v` offered on the action channel of Player `p`. -/
def offer (w : World) (p : Nat) (v : Nat) : World :=
  (sendReq w p v).getD w

instance (w : World) (p : Nat) : Decidable (reqClosed w p) := by
  unfold reqClosed; infer_instance

instance (w : World) (g : Game) : Decidable (timerStopped w g) := by
  unfold timerStopped; infer_instance

/-- The world of `midWorld` inside `endGame`, after both action channels were closed
(main.go 182-183) and before the `inGame` flags are cleared (main.go 184-185). -/
def closingWorld : World :=
  (((closeReq midWorld midGame.currPlay).bind fun w => closeReq w midGame.oppPlay).getD midWorld)

/-- The world of `midWorld` after `endGame` has run with reason `INGAME_C`. -/
def endedWorld : World :=
  (endGame midWorld midGame INGAME_C).getD midWorld

/-- The match of `midWorld` with three values waiting: button 0 from Player 1, then
button 2 and the disconnect value from Player 0. -/
def busyWorld : World :=
  offer (offer (offer midWorld 1 0) 0 2) 0 3

/-! ## Facts about `chain` -/

theorem chain_nil_left {h : List LList} {p : Option Nat} {vs : List Nat} :
    chain h p [] vs ↔ p = none ∧ vs = [] := by
  cases vs <;> simp [chain]

theorem chain_cons_left {h : List LList} {p : Option Nat} {a : Nat} {as vs : List Nat} :
    chain h p (a :: as) vs ↔
      ∃ v vt n, vs = v :: vt ∧ p = some a ∧ h[a]? = some n ∧ n.val = v ∧ chain h n.next as vt := by
  cases vs with
  | nil => simp [chain]
  | cons v vt =>
    cases hn : h[a]? with
    | none => simp [chain, hn]
    | some n =>
      simp only [chain, hn, Option.map_some', Option.some_bind, Option.some.injEq,
        List.cons.injEq]
      constructor
      · rintro ⟨hp, hv, ht⟩
        exact ⟨v, vt, n, ⟨rfl, rfl⟩, hp, rfl, hv, ht⟩
      · rintro ⟨v2, vt2, n2, ⟨rfl, rfl⟩, hp, rfl, hv, ht⟩
        exact ⟨hp, hv, ht⟩

theorem chain_length {h : List LList} {as : List Nat} :
    ∀ {p : Option Nat} {vs : List Nat}, chain h p as vs → as.length = vs.length := by
  induction as with
  | nil => intro p vs hc; rw [chain_nil_left] at hc; simp [hc.2]
  | cons a as ih =>
    intro p vs hc
    obtain ⟨v, vt, n, rfl, -, -, -, ht⟩ := chain_cons_left.mp hc
    simp [ih ht]

theorem chain_det {h : List LList} {as : List Nat} :
    ∀ {p : Option Nat} {vs as2 vs2 : List Nat},
      chain h p as vs → chain h p as2 vs2 → as = as2 := by
  induction as with
  | nil =>
    intro p vs as2 vs2 h1 h2
    rw [chain_nil_left] at h1
    cases as2 with
    | nil => rfl
    | cons b bs =>
      obtain ⟨_, _, _, _, hp, _⟩ := chain_cons_left.mp h2
      rw [h1.1] at hp; cases hp
  | cons a as ih =>
    intro p vs as2 vs2 h1 h2
    obtain ⟨v, vt, n, rfl, hp, hn, -, ht⟩ := chain_cons_left.mp h1
    cases as2 with
    | nil => rw [chain_nil_left] at h2; rw [h2.1] at hp; cases hp
    | cons b bs =>
      obtain ⟨v2, vt2, n2, rfl, hp2, hn2, -, ht2⟩ := chain_cons_left.mp h2
      rw [hp] at hp2
      cases hp2
      rw [hn] at hn2
      cases hn2
      rw [ih ht ht2]

theorem chain_suffix {h : List LList} {l1 : List Nat} :
    ∀ {p : Option Nat} {a : Nat} {l2 vs : List Nat},
      chain h p (l1 ++ a :: l2) vs → ∃ vs2, chain h (some a) (a :: l2) vs2 := by
  induction l1 with
  | nil =>
    intro p a l2 vs hc
    obtain ⟨v, vt, n, rfl, hp, hn, hv, ht⟩ := chain_cons_left.mp hc
    exact ⟨_, hp ▸ hc⟩
  | cons x l1 ih =>
    intro p a l2 vs hc
    obtain ⟨v, vt, n, rfl, hp, hn, hv, ht⟩ := chain_cons_left.mp hc
    exact ih ht

theorem chain_nodup {h : List LList} {as : List Nat} :
    ∀ {p : Option Nat} {vs : List Nat}, chain h p as vs → as.Nodup := by
  induction as with
  | nil => intro p vs _; exact List.nodup_nil
  | cons a as ih =>
    intro p vs hc
    obtain ⟨v, vt, n, rfl, hp, hn, hv, ht⟩ := chain_cons_left.mp hc
    refine List.nodup_cons.mpr ⟨?_, ih ht⟩
    intro hmem
    obtain ⟨l1, l2, rfl⟩ := List.append_of_mem hmem
    obtain ⟨vs2, h2⟩ := chain_suffix ht
    have e := chain_det (hp ▸ hc) h2
    have := congrArg List.length e
    simp at this
    omega

theorem chain_head {h : List LList} {p : Option Nat} {as vs : List Nat}
    (hc : chain h p as vs) : p = as[0]? := by
  cases as with
  | nil => simpa using (chain_nil_left.mp hc).1
  | cons a as =>
    obtain ⟨_, _, _, _, hp, _⟩ := chain_cons_left.mp hc
    simpa using hp

theorem chain_get {h : List LList} {as : List Nat} :
    ∀ {p : Option Nat} {vs : List Nat} {i a : Nat}, chain h p as vs → as[i]? = some a →
      ∃ n, h[a]? = some n ∧ vs[i]? = some n.val ∧ n.next = as[i + 1]? := by
  induction as with
  | nil => intro p vs i a _ hi; simp at hi
  | cons a0 as ih =>
    intro p vs i a hc hi
    obtain ⟨v, vt, n, rfl, hp, hn, hv, ht⟩ := chain_cons_left.mp hc
    cases i with
    | zero =>
      simp at hi
      subst hi
      exact ⟨n, hn, by simp [hv], by simpa using chain_head ht⟩
    | succ i =>
      simp at hi
      obtain ⟨m, hm, hv2, hnx⟩ := ih ht hi
      exact ⟨m, hm, by simpa using hv2, by simpa using hnx⟩

theorem chain_grow {h : List LList} {b : Nat} {as : List Nat} :
    ∀ {p : Option Nat} {vs : List Nat} {a v : Nat},
      chain h p (as ++ [a]) (vs ++ [v]) → a ∉ as →
      chain ((h ++ [(⟨3, none⟩ : LList)]).set a { val := b, next := some h.length })
        p (as ++ [a, h.length]) (vs ++ [b, 3]) := by
  induction as with
  | nil =>
    intro p vs a v hc _
    have hl := chain_length hc
    cases vs with
    | cons _ _ => simp at hl
    | nil =>
      obtain ⟨v1, vt, n, hvs, hp, hn, hv, ht⟩ := chain_cons_left.mp hc
      have ha : a < h.length := by
        by_contra hge
        rw [List.getElem?_eq_none (by omega)] at hn
        cases hn
      have hne : h.length ≠ a := by omega
      have hlen : a < (h ++ [(⟨3, none⟩ : LList)]).length := by simp; omega
      have e1 : ((h ++ [(⟨3, none⟩ : LList)]).set a ⟨b, some h.length⟩)[a]? =
          some ⟨b, some h.length⟩ := by
        rw [List.getElem?_set_self hlen]
      have e2 : ((h ++ [(⟨3, none⟩ : LList)]).set a ⟨b, some h.length⟩)[h.length]? =
          some ⟨3, none⟩ := by
        rw [List.getElem?_set_ne (by omega)]
        simp
      simp [chain, hp, e1, e2]
  | cons a0 as ih =>
    intro p vs a v hc hnot
    obtain ⟨v1, vt, n, hvs, hp, hn, hv, ht⟩ := chain_cons_left.mp hc
    cases vs with
    | nil =>
      simp at hvs
      obtain ⟨-, rfl⟩ := hvs
      have := chain_length ht
      simp at this
    | cons v0 vs =>
      simp at hvs
      obtain ⟨rfl, rfl⟩ := hvs
      have ha0 : a0 < h.length := by
        by_contra hge
        rw [List.getElem?_eq_none (by omega)] at hn
        cases hn
      have hne : a ≠ a0 := by
        intro e; apply hnot; simp [e]
      have hnot2 : a ∉ as := by
        intro e; apply hnot; simp [e]
      have hh : ((h ++ [(⟨3, none⟩ : LList)]).set a
          { val := b, next := some h.length })[a0]? = some n := by
        rw [List.getElem?_set_ne hne, List.getElem?_append_left ha0, hn]
      have := ih ht hnot2
      simp only [List.cons_append]
      exact chain_cons_left.mpr ⟨_, _, n, rfl, hp, hh, hv, this⟩


/-! ## Facts about `update` -/

theorem write_ok {w : World} {p : Nat} (m : String) (hp : p < w.players.length) :
    write w p m = some { w with out := w.out ++ [(p, m)] } := by
  simp [write, hp]

theorem matchState_cursor {w : World} {g : Game} {vs : List Nat} {i : Nat}
    (hs : MatchState w g vs i) :
    ∃ a n, g.prog = some a ∧ w.heap[a]? = some n ∧ (vs ++ [3])[i]? = some n.val := by
  obtain ⟨ptrs, hc, hp, hi, -, -, -, -⟩ := hs
  have hl := chain_length hc
  simp at hl
  have hlt : i < ptrs.length := by omega
  have hget : ptrs[i]? = some ptrs[i] := List.getElem?_eq_getElem hlt
  obtain ⟨n, hn, hv, -⟩ := chain_get hc hget
  exact ⟨ptrs[i], n, by rw [hp, hget], hn, hv⟩

theorem update_open {w : World} {g : Game} {vs : List Nat} {b : Nat}
    (hs : MatchState w g vs vs.length) (hb : b < 3) :
    ∃ w2 g2, update w g b = some (w2, g2, 0) ∧ MatchState w2 g2 (vs ++ [b]) 0 ∧
      g2.currPlay = g.oppPlay ∧ g2.oppPlay = g.currPlay ∧
      deadline w2 g2 = some Second ∧ Pressed w w2 g g2 b := by
  obtain ⟨a, n, hpa, hn, hv⟩ := matchState_cursor hs
  obtain ⟨ptrs, hc, hp, hi, hvs, hcp, hop, ht⟩ := hs
  have hl := chain_length hc
  simp at hl
  have hn3 : n.val = 3 := by simpa using hv.symm
  rcases List.eq_nil_or_concat ptrs with rfl | ⟨as, l, rfl⟩
  · simp at hl
  rw [List.concat_eq_append] at hc hp
  simp at hl
  have hal : l = a := by
    have : (as ++ [l])[vs.length]? = some l := by
      rw [← hl]; simp
    rw [this] at hp
    rw [hpa] at hp
    exact (Option.some.inj hp).symm
  subst hal
  have hnd := chain_nodup hc
  have hnot : l ∉ as := by
    intro hmem
    have := List.nodup_append.mp hnd
    exact this.2.2 hmem (by simp)
  have hgrow := chain_grow (b := b) hc hnot
  refine ⟨{ w with heap := (w.heap ++ [(⟨3, none⟩ : LList)]).set l ⟨b, some w.heap.length⟩,
                   timers := w.timers.set g.timer ⟨Second, false⟩,
                   out := w.out ++ [(g.oppPlay, buttonMsg b)] },
          { g with prog := g.seq, currPlay := g.oppPlay, oppPlay := g.currPlay }, ?_, ?_, rfl, rfl,
          ?_, ?_⟩
  · simp [update, write_ok _ hop, hpa, hn, hn3, resetTimer, ht, List.set_set]
  · refine ⟨as ++ [l, w.heap.length], ?_, ?_, Nat.zero_le _, ?_, ?_, ?_, ?_⟩
    · simpa using hgrow
    · exact chain_head hgrow
    · intro v hv
      rcases List.mem_append.mp hv with h1 | h1
      · exact hvs v h1
      · simp at h1; omega
    · simpa using hop
    · simpa using hcp
    · simpa using ht
  · simp [deadline, ht]
  · exact ⟨rfl, rfl, rfl, rfl, rfl⟩


theorem matchState_value_lt {w : World} {g : Game} {vs : List Nat} {i v : Nat}
    (hs : MatchState w g vs i) (hv : vs[i]? = some v) : v < 3 := by
  obtain ⟨_, _, _, _, hvs, _⟩ := hs
  exact hvs v (List.getElem?_mem hv)

theorem update_match {w : World} {g : Game} {vs : List Nat} {i b : Nat}
    (hs : MatchState w g vs i) (hv : vs[i]? = some b) :
    ∃ w2 g2, update w g b = some (w2, g2, 0) ∧ MatchState w2 g2 vs (i + 1) ∧
      g2.currPlay = g.currPlay ∧ g2.oppPlay = g.oppPlay ∧
      deadline w2 g2 = some Second ∧ Pressed w w2 g g2 b ∧ w2.heap = w.heap := by
  have hb3 := matchState_value_lt hs hv
  obtain ⟨ptrs, hc, hp, hi, hvs, hcp, hop, ht⟩ := hs
  have hil : i < vs.length := by
    by_contra hge
    rw [List.getElem?_eq_none (by omega)] at hv
    cases hv
  have hl := chain_length hc
  simp at hl
  have hget : ptrs[i]? = some ptrs[i] := List.getElem?_eq_getElem (by omega)
  obtain ⟨n, hn, hnv, hnx⟩ := chain_get hc hget
  rw [List.getElem?_append_left hil, hv] at hnv
  have hval : n.val = b := (Option.some.inj hnv).symm
  have hne : ¬ n.val = 3 := by omega
  have hne2 : ¬ b = 3 := by omega
  refine ⟨{ w with timers := w.timers.set g.timer ⟨Second, false⟩,
                   out := w.out ++ [(g.oppPlay, buttonMsg b)] },
          { g with prog := n.next }, ?_, ?_, rfl, rfl, ?_, ?_, rfl⟩
  · simp [update, write_ok _ hop, hp, hget, hn, hne2, hval, resetTimer, ht]
  · exact ⟨ptrs, hc, hnx, by omega, hvs, by simpa using hcp, by simpa using hop,
      by simpa using ht⟩
  · simp [deadline, ht]
  · exact ⟨rfl, rfl, rfl, rfl, rfl⟩

theorem update_mismatch {w : World} {g : Game} {vs : List Nat} {i b : Nat}
    (hs : MatchState w g vs i) (hil : i < vs.length) (hv : vs[i]? ≠ some b) :
    update w g b = some ({ w with out := w.out ++ [(g.oppPlay, buttonMsg b)] }, g, INGAME_C) := by
  have hvi : vs[i]? = some vs[i] := List.getElem?_eq_getElem hil
  have hb3 := matchState_value_lt hs hvi
  obtain ⟨ptrs, hc, hp, hi, hvs, hcp, hop, ht⟩ := hs
  have hl := chain_length hc
  simp at hl
  have hget : ptrs[i]? = some ptrs[i] := List.getElem?_eq_getElem (by omega)
  obtain ⟨n, hn, hnv, hnx⟩ := chain_get hc hget
  rw [List.getElem?_append_left hil, hvi] at hnv
  have hval : n.val = vs[i] := (Option.some.inj hnv).symm
  have hne : ¬ n.val = 3 := by omega
  have hnb : ¬ n.val = b := by
    intro e
    apply hv
    rw [hvi, ← hval, e]
  simp [update, write_ok _ hop, hp, hget, hn, hne, hnb]


/-! ## Facts about receiving -/

theorem tryRecv_closed {c ch : Chan} {v : Nat} (h : tryRecv c = some (v, ch)) :
    ch.closed = c.closed := by
  unfold tryRecv at h
  split at h
  · cases h; rfl
  · split at h
    · cases h; rfl
    · cases h

theorem recvReq_spec {w w1 : World} {p v : Nat} (h : recvReq w p = some (v, w1)) :
    ∃ pl ch, w.players[p]? = some pl ∧ tryRecv pl.req = some (v, ch) ∧
      w1 = { w with players := w.players.set p { pl with req := ch } } := by
  unfold recvReq at h
  split at h
  · cases h
  · rename_i pl hpl
    split at h
    · rename_i c ch hch
      cases h
      exact ⟨pl, ch, hpl, hch, rfl⟩
    · cases h

theorem matchState_frame {w w1 : World} {g : Game} {vs : List Nat} {i : Nat}
    (hh : w1.heap = w.heap) (ht : w1.timers.length = w.timers.length)
    (hp : w1.players.length = w.players.length) (hs : MatchState w g vs i) :
    MatchState w1 g vs i := by
  obtain ⟨ptrs, h1, h2, h3, h4, h5, h6, h7⟩ := hs
  exact ⟨ptrs, hh ▸ h1, h2, h3, h4, hp ▸ h5, hp ▸ h6, ht ▸ h7⟩

theorem matchState_recv {w w1 : World} {g : Game} {vs : List Nat} {i p v : Nat}
    (h : recvReq w p = some (v, w1)) (hs : MatchState w g vs i) : MatchState w1 g vs i := by
  obtain ⟨pl, ch, -, -, rfl⟩ := recvReq_spec h
  exact matchState_frame (w := w) rfl rfl (by simp) hs

theorem reqOpen_recv {w w1 : World} {p v q : Nat}
    (h : recvReq w p = some (v, w1)) (ho : reqOpen w q) : reqOpen w1 q := by
  obtain ⟨pl, ch, hpl, hch, rfl⟩ := recvReq_spec h
  have hc := tryRecv_closed hch
  unfold reqOpen at *
  by_cases hq : p = q
  · subst hq
    have hlt : p < w.players.length := by
      by_contra hge
      rw [List.getElem?_eq_none (by omega)] at hpl
      cases hpl
    rw [hpl] at ho
    simp [List.getElem?_set_self hlt, hc]
    simpa using ho
  · simpa [List.getElem?_set_ne hq] using ho

theorem playing_recv {w w1 : World} {g : Game} {p v : Nat}
    (h : recvReq w p = some (v, w1)) (hP : Playing w g) : Playing w1 g :=
  ⟨hP.1, reqOpen_recv h hP.2.1, reqOpen_recv h hP.2.2.1, by
    obtain ⟨pl, ch, -, -, rfl⟩ := recvReq_spec h
    exact hP.2.2.2⟩

/-! ## Facts about `endGame` -/

theorem reqOpen_lt {w : World} {p : Nat} (h : reqOpen w p) : p < w.players.length := by
  unfold reqOpen at h
  by_contra hge
  rw [List.getElem?_eq_none (by omega)] at h
  cases h

theorem announce_spec {w : World} {g : Game} (reason : Nat)
    (hc : g.currPlay < w.players.length) (ho : g.oppPlay < w.players.length) :
    announce w g reason = some { w with out := w.out ++ verdict g reason } := by
  unfold announce verdict
  simp only [INGAME_C, DC_C, DC_O]
  by_cases h1 : reason = 1
  · simp [h1, write, hc, ho]
  · by_cases h2 : reason = 2
    · simp [h2, write, ho]
    · by_cases h3 : reason = 3
      · simp [h3, write, hc]
      · simp [h1, h2, h3]

theorem endGame_spec {w : World} {g : Game} (reason : Nat)
    (hP : Playing w g) :
    ∃ w3, endGame w g reason = some w3 ∧ w3.out = w.out ++ verdict g reason ∧
      w3.heap = w.heap ∧ w3.queue = w.queue ∧
      flagIs w3 g.currPlay false ∧ flagIs w3 g.oppPlay false ∧
      (w3.players[g.currPlay]?).map (fun pl => pl.req.closed) = some true ∧
      (w3.players[g.oppPlay]?).map (fun pl => pl.req.closed) = some true ∧
      (w3.timers[g.timer]?).map (fun t => t.stopped) = some true := by
  obtain ⟨hne, hco, hoo, ht⟩ := hP
  have hc := reqOpen_lt hco
  have ho := reqOpen_lt hoo
  unfold reqOpen at hco hoo
  have e1 : w.players[g.currPlay]? = some w.players[g.currPlay] := List.getElem?_eq_getElem hc
  have e2 : w.players[g.oppPlay]? = some w.players[g.oppPlay] := List.getElem?_eq_getElem ho
  have e3 : w.timers[g.timer]? = some w.timers[g.timer] := List.getElem?_eq_getElem ht
  rw [e1] at hco
  rw [e2] at hoo
  simp at hco hoo
  have hne2 : g.oppPlay ≠ g.currPlay := fun e => hne e.symm
  simp [endGame, announce_spec reason hc ho, closeReq, setInGame, stopTimer, flagIs, e1, e2, e3,
    hco, hoo, List.getElem?_set_ne hne, List.getElem?_set_ne hne2, List.getElem?_set_self, hc, ho,
    ht]

/-! ## Facts about the match loop -/

theorem loopStep_opp_press {w w1 : World} {g : Game} {b : Nat}
    (hb : b < 3) (hr : recvReq w g.oppPlay = some (b, w1)) :
    loopStep w g 0 Ev.opp = (update w1 g b).map fun r => (r.1, r.2.1, 0) := by
  have hne : ¬ b = DC := by unfold DC; omega
  simp only [loopStep, hr, hne, if_false]
  cases update w1 g b <;> rfl

theorem loopStep_curr_press {w w1 : World} {g : Game} {b : Nat}
    (hb : b < 3) (hr : recvReq w g.currPlay = some (b, w1)) :
    loopStep w g 0 Ev.curr = update w1 g b := by
  have hne : ¬ b = DC := by unfold DC; omega
  simp only [loopStep, hr, hne, if_false]

theorem update_mismatch_frame {w : World} {g : Game} {vs : List Nat} {i b : Nat}
    (hs : MatchState w g vs i) (hil : i < vs.length) (hv : vs[i]? ≠ some b) :
    ∃ w2, update w g b = some (w2, g, INGAME_C) ∧ w2.heap = w.heap ∧ w2.timers = w.timers ∧
      w2.players = w.players ∧ w2.queue = w.queue ∧
      w2.out = w.out ++ [(g.oppPlay, buttonMsg b)] :=
  ⟨_, update_mismatch hs hil hv, rfl, rfl, rfl, rfl, rfl⟩

theorem playing_frame {w w2 : World} {g : Game} (hp : w2.players = w.players)
    (ht : w2.timers.length = w.timers.length) (hP : Playing w g) : Playing w2 g := by
  obtain ⟨h1, h2, h3, h4⟩ := hP
  refine ⟨h1, ?_, ?_, ht ▸ h4⟩
  · unfold reqOpen at *; rw [hp]; exact h2
  · unfold reqOpen at *; rw [hp]; exact h3

/-! ## Facts about the start of a match -/

theorem tryRecv_DC {c : Chan} :
    (tryRecv c).map (fun r => r.1) = some DC ↔ c.buf.head? = some DC := by
  unfold tryRecv
  cases hb : c.buf with
  | nil =>
    by_cases hc : c.closed <;> simp [hc, DC]
  | cons v rest => simp

theorem pollReq_spec {w : World} {p : Nat} {pl : Player} (hpl : w.players[p]? = some pl) :
    ∃ c w1, pollReq w p = some (c, w1) ∧ (c = some DC ↔ pendingDC w p) ∧ ReqOnly w w1 p := by
  have hlt : p < w.players.length := by
    by_contra hge
    rw [List.getElem?_eq_none (by omega)] at hpl
    cases hpl
  have hDC := tryRecv_DC (c := pl.req)
  unfold pollReq pendingDC
  rw [hpl]
  cases ht : tryRecv pl.req with
  | none =>
    rw [ht] at hDC
    refine ⟨none, w, by simp [ht], ?_, rfl, rfl, rfl, rfl, rfl, fun _ => rfl, fun _ _ => rfl⟩
    simp at hDC
    simp [hDC]
  | some r =>
    obtain ⟨v, ch⟩ := r
    rw [ht] at hDC
    refine ⟨some v, { w with players := w.players.set p { pl with req := ch } }, by simp [ht],
      ?_, rfl, rfl, rfl, rfl, by simp, ?_, ?_⟩
    · simpa using hDC
    · intro q
      by_cases hq : p = q
      · subst hq
        simp [List.getElem?_set_self hlt, hpl]
      · simp [List.getElem?_set_ne hq]
    · intro q hq
      simp [List.getElem?_set_ne (Ne.symm hq)]

theorem pollReq_inv {w w1 : World} {p : Nat} {c : Option Nat}
    (h : pollReq w p = some (c, w1)) :
    (c = some DC ↔ pendingDC w p) ∧ ReqOnly w w1 p := by
  cases hpl : w.players[p]? with
  | none => simp [pollReq, hpl] at h
  | some pl =>
    obtain ⟨c2, w2, h2, h3, h4⟩ := pollReq_spec hpl
    rw [h] at h2
    cases h2
    exact ⟨h3, h4⟩

theorem flagIs_some {w : World} {p : Nat} {b : Bool} (h : flagIs w p b) :
    ∃ pl, w.players[p]? = some pl := by
  unfold flagIs at h
  cases hpl : w.players[p]? with
  | none => rw [hpl] at h; cases h
  | some pl => exact ⟨pl, rfl⟩

theorem flagIs_reqOnly {w w1 : World} {p q : Nat} {b : Bool} (hr : ReqOnly w w1 p)
    (h : flagIs w q b) : flagIs w1 q b := by
  unfold flagIs at *
  rw [hr.2.2.2.2.2.1 q]
  exact h

theorem pendingDC_reqOnly {w w1 : World} {p q : Nat} (hr : ReqOnly w w1 p) (hq : q ≠ p) :
    pendingDC w1 q ↔ pendingDC w q := by
  unfold pendingDC
  rw [hr.2.2.2.2.2.2 q hq]

theorem write_inv {w w1 : World} {p : Nat} {m : String} (h : write w p m = some w1) :
    p < w.players.length ∧ w1 = { w with out := w.out ++ [(p, m)] } := by
  unfold write at h
  split at h
  · rename_i hp
    cases h
    exact ⟨hp, rfl⟩
  · cases h

theorem setInGame_inv {w w1 : World} {p : Nat} {b : Bool} (h : setInGame w p b = some w1) :
    w1.heap = w.heap ∧ w1.timers = w.timers ∧ w1.out = w.out ∧ w1.queue = w.queue ∧
    w1.players.length = w.players.length ∧ flagIs w1 p b ∧
    (∀ q : Nat, q ≠ p → w1.players[q]? = w.players[q]?) := by
  unfold setInGame at h
  split at h
  · cases h
  · rename_i pl hpl
    cases h
    have hlt : p < w.players.length := by
      by_contra hge
      rw [List.getElem?_eq_none (by omega)] at hpl
      cases hpl
    refine ⟨rfl, rfl, rfl, rfl, by simp, ?_, ?_⟩
    · simp [flagIs, List.getElem?_set_self hlt]
    · intro q hq
      simp [List.getElem?_set_ne (Ne.symm hq)]

theorem initGameStart_started {w w0 : World} {g0 : Game} {p1 p2 : Nat}
    (h : initGameStart w p1 p2 = some (Start.started w0 g0)) :
    MatchState w0 g0 [] 0 ∧ deadline w0 g0 = some (30 * Second) ∧
    g0.currPlay = p1 ∧ g0.oppPlay = p2 ∧
    w0.out = w.out ++ [(p1, "starty"), (p2, "startt")] ∧
    flagIs w0 p1 true ∧ flagIs w0 p2 true ∧ w0.queue = w.queue := by
  unfold initGameStart at h
  split at h
  · cases h
  · rename_i c1 wa hpa
    obtain ⟨-, ha⟩ := pollReq_inv hpa
    split at h
    · cases h
    · split at h
      · cases h
      · rename_i c2 wb hpb
        obtain ⟨-, hb⟩ := pollReq_inv hpb
        split at h
        · cases h
        · simp only [Option.bind_eq_some] at h
          obtain ⟨w1, hw1, w2, hw2, w3, hw3, w4, hw4, hfin⟩ := h
          cases hfin
          obtain ⟨hl1, rfl⟩ := write_inv hw1
          obtain ⟨hl2, rfl⟩ := write_inv hw2
          obtain ⟨a1, a2, a3, a4, a5, a6, a7⟩ := setInGame_inv hw3
          obtain ⟨b1, b2, b3, b4, b5, b6, b7⟩ := setInGame_inv hw4
          simp only at a1 a2 a3 a4 a5 hl1 hl2
          obtain ⟨ha1, ha2, ha3, ha4, ha5, -, -⟩ := ha
          obtain ⟨hb1, hb2, hb3, hb4, hb5, -, -⟩ := hb
          refine ⟨⟨[wb.heap.length], ?_, rfl, Nat.le_refl _, by simp, ?_, ?_, ?_⟩, ?_, rfl, rfl,
            ?_, ?_, b6, ?_⟩
          · rw [b1, a1]
            simp [chain]
          · rw [b5, a5]; exact hl1
          · rw [b5, a5]; exact hl2
          · rw [b2, a2]; simp
          · simp [deadline, b2, a2]
          · rw [b3, a3, hb3, ha3]; simp
          · by_cases hq : p1 = p2
            · subst hq; exact b6
            · unfold flagIs at *
              rw [b7 p1 hq]
              exact a6
          · rw [b4, a4, hb4, ha4]

theorem start_abort_first {w : World} {p1 : Nat} (p2 : Nat) {b1 : Bool}
    (h1 : flagIs w p1 b1) (hd : pendingDC w p1) :
    ∃ w2, initGameStart w p1 p2 = some (Start.requeued w2) ∧ w2.queue = w.queue ++ [p2] ∧
      w2.timers = w.timers ∧ w2.heap = w.heap ∧ w2.out = w.out ∧
      ∀ (q : Nat) (b : Bool), flagIs w q b → flagIs w2 q b := by
  obtain ⟨pl, hpl⟩ := flagIs_some h1
  obtain ⟨c, wa, hp, hiff, hro⟩ := pollReq_spec hpl
  have hc : c = some DC := hiff.mpr hd
  refine ⟨{ wa with queue := wa.queue ++ [p2] }, ?_, ?_, hro.2.1, hro.1, hro.2.2.1, ?_⟩
  · simp [initGameStart, hp, hc]
  · simp [hro.2.2.2.1]
  · intro q b hq
    have hf : flagIs wa q b := flagIs_reqOnly hro hq
    exact hf

theorem start_abort_second {w : World} {p1 p2 : Nat} {b1 b2 : Bool}
    (h1 : flagIs w p1 b1) (h2 : flagIs w p2 b2) (hn : ¬ pendingDC w p1) (hd : pendingDC w p2) :
    ∃ w2, initGameStart w p1 p2 = some (Start.requeued w2) ∧ w2.queue = w.queue ++ [p1] ∧
      w2.timers = w.timers ∧ w2.heap = w.heap ∧ w2.out = w.out ∧
      ∀ (q : Nat) (b : Bool), flagIs w q b → flagIs w2 q b := by
  have hne : p2 ≠ p1 := by
    intro e
    subst e
    exact hn hd
  obtain ⟨pl, hpl⟩ := flagIs_some h1
  obtain ⟨c, wa, hp, hiff, hro⟩ := pollReq_spec hpl
  have hc : ¬ c = some DC := fun e => hn (hiff.mp e)
  obtain ⟨pl2, hpl2⟩ := flagIs_some (flagIs_reqOnly hro h2)
  obtain ⟨c2, wb, hp2, hiff2, hro2⟩ := pollReq_spec hpl2
  have hc2 : c2 = some DC := hiff2.mpr ((pendingDC_reqOnly hro hne).mpr hd)
  refine ⟨{ wb with queue := wb.queue ++ [p1] }, ?_, ?_, ?_, ?_, ?_, ?_⟩
  · simp [initGameStart, hp, hc, hp2, hc2]
  · simp [hro2.2.2.2.1, hro.2.2.2.1]
  · exact hro2.2.1.trans hro.2.1
  · exact hro2.1.trans hro.1
  · exact hro2.2.2.1.trans hro.2.2.1
  · intro q b hq
    have hf : flagIs wb q b := flagIs_reqOnly hro2 (flagIs_reqOnly hro hq)
    exact hf

theorem start_go {w : World} {p1 p2 : Nat} {b1 b2 : Bool}
    (h1 : flagIs w p1 b1) (h2 : flagIs w p2 b2) (hne : p1 ≠ p2)
    (hn1 : ¬ pendingDC w p1) (hn2 : ¬ pendingDC w p2) :
    ∃ w2 g, initGameStart w p1 p2 = some (Start.started w2 g) := by
  obtain ⟨pl, hpl⟩ := flagIs_some h1
  obtain ⟨c, wa, hp, hiff, hro⟩ := pollReq_spec hpl
  have hc : ¬ c = some DC := fun e => hn1 (hiff.mp e)
  obtain ⟨pl2, hpl2⟩ := flagIs_some (flagIs_reqOnly hro h2)
  obtain ⟨c2, wb, hp2, hiff2, hro2⟩ := pollReq_spec hpl2
  have hc2 : ¬ c2 = some DC := fun e => hn2 ((pendingDC_reqOnly hro hne.symm).mp (hiff2.mp e))
  obtain ⟨pb1, hb1⟩ := flagIs_some (flagIs_reqOnly hro2 (flagIs_reqOnly hro h1))
  obtain ⟨pb2, hb2⟩ := flagIs_some (flagIs_reqOnly hro2 (flagIs_reqOnly hro h2))
  have l1 : p1 < wb.players.length := by
    by_contra hge
    rw [List.getElem?_eq_none (by omega)] at hb1
    cases hb1
  have l2 : p2 < wb.players.length := by
    by_contra hge
    rw [List.getElem?_eq_none (by omega)] at hb2
    cases hb2
  simp [initGameStart, hp, hc, hp2, hc2, write, setInGame, l1, l2, hb1, hb2,
    List.getElem?_set_ne hne]

theorem sentSince_append (w w3 : World) (l : List (Nat × String)) (h : w3.out = w.out ++ l) :
    sentSince w w3 = l := by
  simp [sentSince, h]

/-! ## Facts about runs of `update` -/

theorem feed_append {l1 : List Nat} :
    ∀ {w w1 w2 : World} {g g1 g2 : Game} {r1 r2 : List Nat} {l2 : List Nat},
      feed w g l1 = some (w1, g1, r1) → feed w1 g1 l2 = some (w2, g2, r2) →
      feed w g (l1 ++ l2) = some (w2, g2, r1 ++ r2) := by
  induction l1 with
  | nil =>
    intro w w1 w2 g g1 g2 r1 r2 l2 h1 h2
    simp [feed] at h1
    obtain ⟨rfl, rfl, rfl⟩ := h1
    simpa using h2
  | cons b bs ih =>
    intro w w1 w2 g g1 g2 r1 r2 l2 h1 h2
    simp only [feed] at h1
    cases hu : update w g b with
    | none => simp [hu] at h1
    | some r =>
      obtain ⟨wa, ga, ra⟩ := r
      cases hf : feed wa ga bs with
      | none => simp [hu, hf] at h1
      | some s =>
        obtain ⟨wb, gb, rb⟩ := s
        simp [hu, hf] at h1
        obtain ⟨rfl, rfl, rfl⟩ := h1
        have := ih hf h2
        simp [feed, hu, this]

theorem feed_length {l : List Nat} :
    ∀ {w w2 : World} {g g2 : Game} {rs : List Nat},
      feed w g l = some (w2, g2, rs) → rs.length = l.length := by
  induction l with
  | nil =>
    intro w w2 g g2 rs h
    simp [feed] at h
    simp [h.2.2.symm]
  | cons b bs ih =>
    intro w w2 g g2 rs h
    simp only [feed] at h
    cases hu : update w g b with
    | none => simp [hu] at h
    | some r =>
      obtain ⟨wa, ga, ra⟩ := r
      cases hf : feed wa ga bs with
      | none => simp [hu, hf] at h
      | some s =>
        obtain ⟨wb, gb, rb⟩ := s
        simp [hu, hf] at h
        obtain ⟨rfl, rfl, rfl⟩ := h
        simp [ih hf]

theorem feed_replay {vs : List Nat} :
    ∀ (k i : Nat) {w : World} {g : Game}, i + k = vs.length → MatchState w g vs i →
      ∃ w2 g2 rs, feed w g (vs.drop i) = some (w2, g2, rs) ∧ (∀ r ∈ rs, r = 0) ∧
        MatchState w2 g2 vs vs.length := by
  intro k
  induction k with
  | zero =>
    intro i w g hi hs
    have : i = vs.length := by omega
    subst this
    exact ⟨w, g, [], by simp [feed], by simp, hs⟩
  | succ k ih =>
    intro i w g hi hs
    have hlt : i < vs.length := by omega
    have hv : vs[i]? = some vs[i] := List.getElem?_eq_getElem hlt
    obtain ⟨w1, g1, hu, hs1, -⟩ := update_match hs hv
    obtain ⟨w2, g2, rs, hf, hz, hs2⟩ := ih (i + 1) (by omega) hs1
    refine ⟨w2, g2, 0 :: rs, ?_, ?_, hs2⟩
    · rw [List.drop_eq_getElem_cons hlt]
      simp [feed, hu, hf]
    · intro r hr
      rcases List.mem_cons.mp hr with rfl | h
      · rfl
      · exact hz r h

theorem feed_round {w : World} {g : Game} {vs : List Nat} {x : Nat}
    (hs : MatchState w g vs 0) (hx : x < 3) :
    ∃ w2 g2 rs, feed w g (vs ++ [x]) = some (w2, g2, rs) ∧ (∀ r ∈ rs, r = 0) ∧
      MatchState w2 g2 (vs ++ [x]) 0 := by
  obtain ⟨w1, g1, rs, hf, hz, hs1⟩ := feed_replay vs.length 0 (by simp) hs
  obtain ⟨w2, g2, hu, hs2, -⟩ := update_open hs1 hx
  have hlast : feed w1 g1 [x] = some (w2, g2, [0]) := by simp [feed, hu]
  refine ⟨w2, g2, rs ++ [0], ?_, ?_, hs2⟩
  · simpa using feed_append hf hlast
  · intro r hr
    rcases List.mem_append.mp hr with h | h
    · exact hz r h
    · simpa using h

theorem feed_rounds {xs : List Nat} (hx : ∀ x ∈ xs, x < 3) :
    ∀ (n : Nat) {w : World} {g : Game}, n ≤ xs.length → MatchState w g [] 0 →
      ∃ w2 g2 rs, feed w g (rounds xs n) = some (w2, g2, rs) ∧ (∀ r ∈ rs, r = 0) ∧
        MatchState w2 g2 (xs.take n) 0 := by
  intro n
  induction n with
  | zero =>
    intro w g _ hs
    exact ⟨w, g, [], by simp [rounds, feed], by simp, by simpa using hs⟩
  | succ n ih =>
    intro w g hn hs
    obtain ⟨w1, g1, rs1, hf1, hz1, hs1⟩ := ih (by omega) hs
    have hlt : n < xs.length := by omega
    have htake : xs.take (n + 1) = xs.take n ++ [xs[n]] := by
      rw [List.take_succ, List.getElem?_eq_getElem hlt]
      rfl
    obtain ⟨w2, g2, rs2, hf2, hz2, hs2⟩ := feed_round hs1 (hx _ (List.getElem_mem hlt))
    refine ⟨w2, g2, rs1 ++ rs2, ?_, ?_, ?_⟩
    · rw [rounds, htake]
      exact feed_append hf1 hf2
    · intro r hr
      rcases List.mem_append.mp hr with h | h
      · exact hz1 r h
      · exact hz2 r h
    · rw [htake]
      exact hs2

theorem update_total {w : World} {g : Game} {vs : List Nat} {i b : Nat}
    (hs : MatchState w g vs i) (hb : b < 3) :
    ∃ w1 g1 r vs1 i1, update w g b = some (w1, g1, r) ∧ MatchState w1 g1 vs1 i1 ∧
      ((r = 0 ∧ deadline w1 g1 = some Second) ∨
       (r = INGAME_C ∧ deadline w1 g1 = deadline w g)) := by
  have hle : i ≤ vs.length := by
    obtain ⟨_, _, _, hle, _⟩ := hs
    exact hle
  by_cases hi : i = vs.length
  · subst hi
    obtain ⟨w2, g2, h1, h2, -, -, h5, -⟩ := update_open hs hb
    exact ⟨w2, g2, 0, _, _, h1, h2, Or.inl ⟨rfl, h5⟩⟩
  · by_cases hv : vs[i]? = some b
    · obtain ⟨w2, g2, h1, h2, -, -, h5, -, -⟩ := update_match hs hv
      exact ⟨w2, g2, 0, _, _, h1, h2, Or.inl ⟨rfl, h5⟩⟩
    · obtain ⟨w2, h1, h2, h3, h4, -, -⟩ := update_mismatch_frame hs (by omega) hv
      refine ⟨w2, g, INGAME_C, vs, i, h1, ?_, Or.inr ⟨rfl, ?_⟩⟩
      · exact matchState_frame (w := w) h2 (by rw [h3]) (by rw [h4]) hs
      · simp [deadline, h3]

theorem feed_deadline {bs : List Nat} :
    ∀ {w : World} {g : Game} {vs : List Nat} {i : Nat}, MatchState w g vs i →
      (∀ b ∈ bs, b < 3) →
      ∃ w2 g2 rs, feed w g bs = some (w2, g2, rs) ∧
        ((∀ r ∈ rs, r ≠ 0) → deadline w2 g2 = deadline w g) ∧
        (0 ∈ rs → deadline w2 g2 = some Second) ∧
        (rs.getLast? = some 0 → deadline w2 g2 = some Second) := by
  induction bs with
  | nil =>
    intro w g vs i _ _
    exact ⟨w, g, [], by simp [feed], fun _ => rfl, by simp, by simp⟩
  | cons b bs ih =>
    intro w g vs i hs hb
    obtain ⟨w1, g1, r, vs1, i1, hu, hs1, hd⟩ := update_total hs (hb b (by simp))
    obtain ⟨w2, g2, rs, hf, k1, k2, k3⟩ := ih hs1 (fun x hx => hb x (by simp [hx]))
    refine ⟨w2, g2, r :: rs, by simp [feed, hu, hf], ?_, ?_, ?_⟩
    · intro hall
      have hr : r ≠ 0 := hall r (by simp)
      rcases hd with ⟨e, -⟩ | ⟨-, e⟩
      · exact absurd e hr
      · rw [k1 (fun x hx => hall x (by simp [hx])), e]
    · intro hmem
      by_cases h0 : 0 ∈ rs
      · exact k2 h0
      · have hr : r = 0 := by
          rcases List.mem_cons.mp hmem with e | e
          · exact e.symm
          · exact absurd e h0
        rcases hd with ⟨-, e⟩ | ⟨e, -⟩
        · rw [k1 (fun x hx e0 => h0 (e0 ▸ hx)), e]
        · rw [hr] at e; cases e
    · intro hlast
      cases rs with
      | nil =>
        simp at hlast
        have e2 := k1 (by simp)
        rcases hd with ⟨-, e⟩ | ⟨e, -⟩
        · rw [e2, e]
        · rw [hlast] at e; cases e
      | cons r2 rs2 =>
        apply k3
        simpa [List.getLast?_cons_cons] using hlast

/-! ## One call of `update`, summarised -/

theorem matchState_timer {w : World} {g : Game} {vs : List Nat} {i : Nat}
    (hs : MatchState w g vs i) : g.timer < w.timers.length := by
  obtain ⟨_, _, _, _, _, _, _, ht⟩ := hs
  exact ht

theorem playing_roles {w w2 : World} {g g2 : Game} (hp : w2.players = w.players)
    (hr : (g2.currPlay = g.currPlay ∧ g2.oppPlay = g.oppPlay) ∨
      (g2.currPlay = g.oppPlay ∧ g2.oppPlay = g.currPlay))
    (ht : g2.timer < w2.timers.length) (hP : Playing w g) : Playing w2 g2 := by
  obtain ⟨h1, h2, h3, -⟩ := hP
  unfold Playing reqOpen at *
  rw [hp]
  rcases hr with ⟨e1, e2⟩ | ⟨e1, e2⟩
  · rw [e1, e2]; exact ⟨h1, h2, h3, ht⟩
  · rw [e1, e2]; exact ⟨fun e => h1 e.symm, h3, h2, ht⟩

theorem update_step {w : World} {g : Game} {vs : List Nat} {i b : Nat}
    (hs : MatchState w g vs i) (hb : b < 3) :
    ∃ w2 g2 r, update w g b = some (w2, g2, r) ∧
      w2.out = w.out ++ [(g.oppPlay, buttonMsg b)] ∧ w2.players = w.players ∧
      w2.queue = w.queue ∧
      ((g2.currPlay = g.currPlay ∧ g2.oppPlay = g.oppPlay) ∨
        (g2.currPlay = g.oppPlay ∧ g2.oppPlay = g.currPlay)) ∧
      (r = 0 ∨ r = INGAME_C) ∧
      (r = INGAME_C → g2 = g ∧ w2 = { w with out := w.out ++ [(g.oppPlay, buttonMsg b)] }) ∧
      ∃ vs2 i2, MatchState w2 g2 vs2 i2 ∧ ∃ t, vs2 = vs ++ t := by
  have hle : i ≤ vs.length := by
    obtain ⟨_, _, _, hle, _⟩ := hs
    exact hle
  have hz : ¬ (0 = INGAME_C) := by decide
  by_cases hi : i = vs.length
  · subst hi
    obtain ⟨w2, g2, h1, h2, h3, h4, -, p1, p2, p3, -, -⟩ := update_open hs hb
    exact ⟨w2, g2, 0, h1, p3, p1, p2, Or.inr ⟨h3, h4⟩, Or.inl rfl,
      fun e => absurd e hz, _, _, h2, [b], rfl⟩
  · by_cases hv : vs[i]? = some b
    · obtain ⟨w2, g2, h1, h2, h3, h4, -, ⟨p1, p2, p3, -, -⟩, -⟩ := update_match hs hv
      exact ⟨w2, g2, 0, h1, p3, p1, p2, Or.inl ⟨h3, h4⟩, Or.inl rfl,
        fun e => absurd e hz, _, _, h2, [], by simp⟩
    · have hu := update_mismatch hs (by omega) hv
      refine ⟨_, g, INGAME_C, hu, rfl, rfl, rfl, Or.inl ⟨rfl, rfl⟩, Or.inr rfl,
        fun _ => ⟨rfl, rfl⟩, vs, i, ?_, [], by simp⟩
      exact matchState_frame (w := w) rfl rfl rfl hs

theorem chain_det_vals {h : List LList} {as : List Nat} :
    ∀ {p : Option Nat} {vs vs2 : List Nat},
      chain h p as vs → chain h p as vs2 → vs = vs2 := by
  induction as with
  | nil =>
    intro p vs vs2 h1 h2
    rw [(chain_nil_left.mp h1).2, (chain_nil_left.mp h2).2]
  | cons a as ih =>
    intro p vs vs2 h1 h2
    obtain ⟨v, vt, n, rfl, -, hn, hv, ht⟩ := chain_cons_left.mp h1
    obtain ⟨v2, vt2, n2, rfl, -, hn2, hv2, ht2⟩ := chain_cons_left.mp h2
    rw [hn] at hn2
    cases hn2
    rw [← hv, ← hv2, ih ht ht2]

theorem matchState_unique {w : World} {g : Game} {vs vs2 : List Nat} {i i2 : Nat}
    (h1 : MatchState w g vs i) (h2 : MatchState w g vs2 i2) : vs = vs2 ∧ i = i2 := by
  obtain ⟨ptrs, hc, hp, hi, -⟩ := h1
  obtain ⟨ptrs2, hc2, hp2, hi2, -⟩ := h2
  have e := chain_det hc hc2
  subst e
  have hv : vs = vs2 := List.append_cancel_right (chain_det_vals hc hc2)
  subst hv
  have hl := chain_length hc
  simp at hl
  have hnd := chain_nodup hc
  have a1 : i < ptrs.length := by omega
  have a2 : i2 < ptrs.length := by omega
  rw [hp, List.getElem?_eq_getElem a1, List.getElem?_eq_getElem a2] at hp2
  exact ⟨rfl, (hnd.getElem_inj_iff).mp (Option.some.inj hp2)⟩

theorem matchState_prog {w : World} {g : Game} {vs : List Nat} {i : Nat}
    (hs : MatchState w g vs i) : g.prog ≠ none := by
  obtain ⟨a, n, hpa, -, -⟩ := matchState_cursor hs
  rw [hpa]
  simp

theorem feed_invariant {bs : List Nat} :
    ∀ {w : World} {g : Game} {vs : List Nat} {i : Nat}, MatchState w g vs i →
      (∀ b ∈ bs, b < 3) →
      ∃ w2 g2 rs vs2 i2, feed w g bs = some (w2, g2, rs) ∧ MatchState w2 g2 vs2 i2 ∧
        ∃ t, vs2 = vs ++ t := by
  induction bs with
  | nil =>
    intro w g vs i hs _
    exact ⟨w, g, [], vs, i, by simp [feed], hs, [], by simp⟩
  | cons b bs ih =>
    intro w g vs i hs hb
    obtain ⟨w1, g1, r, hu, -, -, -, -, -, -, vs1, i1, hs1, t1, e1⟩ :=
      update_step hs (hb b (by simp))
    obtain ⟨w2, g2, rs, vs2, i2, hf, hs2, t2, e2⟩ := ih hs1 (fun x hx => hb x (by simp [hx]))
    exact ⟨w2, g2, r :: rs, vs2, i2, by simp [feed, hu, hf], hs2, t1 ++ t2, by
      rw [e2, e1, List.append_assoc]⟩

/-! ## Facts about deliveries -/

theorem set_same {α : Type} {l : List α} {i : Nat} {x : α} (h : l[i]? = some x) :
    l.set i x = l := by
  apply List.ext_getElem?
  intro n
  by_cases hn : i = n
  · subst hn
    have hlt : i < l.length := by
      by_contra hge
      rw [List.getElem?_eq_none (by omega)] at h
      cases h
    rw [List.getElem?_set_self hlt, h]
  · rw [List.getElem?_set_ne hn]

theorem press_active {w : World} {g : Game} {p : Nat} {m : String}
    (hP : w.players[p]? = some ⟨⟨[], false⟩, true⟩) (hc : g.currPlay = p)
    (hm : m = "button0" ∨ m = "button1" ∨ m = "button2") :
    press w g p m = update w g (decodeButton m) ∧
    readerStep w p (some m) = some (offer w p (decodeButton m), true) ∧
    loopStep (offer w p (decodeButton m)) g 0 Ev.curr = update w g (decodeButton m) := by
  have hlt : p < w.players.length := by
    by_contra hge
    rw [List.getElem?_eq_none (by omega)] at hP
    cases hP
  have hne : m ≠ "here" := by
    rcases hm with rfl | rfl | rfl <;> decide
  have hd : ¬ decodeButton m = DC := by
    rcases hm with rfl | rfl | rfl <;> decide
  have hr : readerStep w p (some m) = some (offer w p (decodeButton m), true) := by
    simp [readerStep, hne, hm, hP, sendReq, offer]
  have hback : (w.players.set p ⟨⟨[decodeButton m], false⟩, true⟩).set p ⟨⟨[], false⟩, true⟩ =
      w.players := by
    rw [List.set_set, set_same hP]
  have hl : loopStep (offer w p (decodeButton m)) g 0 Ev.curr = update w g (decodeButton m) := by
    simp [loopStep, hc, offer, sendReq, hP, recvReq, tryRecv, List.getElem?_set_self hlt, hd,
      hback]
  refine ⟨?_, hr, hl⟩
  simp only [press, hr, hc, if_true]
  exact hl

theorem start_clean {w : World} {p1 p2 : Nat} {f1 f2 : Bool}
    (h1 : w.players[p1]? = some ⟨⟨[], false⟩, f1⟩)
    (h2 : w.players[p2]? = some ⟨⟨[], false⟩, f2⟩) (hne : p1 ≠ p2) :
    ∃ w0 g0, initGameStart w p1 p2 = some (Start.started w0 g0) ∧
      w0.players[p1]? = some ⟨⟨[], false⟩, true⟩ ∧
      w0.players[p2]? = some ⟨⟨[], false⟩, true⟩ := by
  have l1 : p1 < w.players.length := by
    by_contra hge
    rw [List.getElem?_eq_none (by omega)] at h1
    cases h1
  have l2 : p2 < w.players.length := by
    by_contra hge
    rw [List.getElem?_eq_none (by omega)] at h2
    cases h2
  refine ⟨{ w with
      heap := w.heap ++ [⟨3, none⟩], timers := w.timers ++ [⟨30 * Second, false⟩],
      out := w.out ++ [(p1, "starty"), (p2, "startt")],
      players := (w.players.set p1 ⟨⟨[], false⟩, true⟩).set p2 ⟨⟨[], false⟩, true⟩ },
    { currPlay := p1, oppPlay := p2, timer := w.timers.length, seq := some w.heap.length,
      prog := some w.heap.length }, ?_, ?_, ?_⟩
  · simp [initGameStart, pollReq, tryRecv, h1, h2, write, setInGame, l1, l2,
      List.getElem?_set_ne hne, DC]
  · simp [List.getElem?_set_ne hne.symm, List.getElem?_set_self l1]
  · rw [List.getElem?_set_self (by simpa using l2)]

/-! ## Facts about runs of the match loop -/

theorem tryRecv_buf {c ch : Chan} {v : Nat} (h : tryRecv c = some (v, ch)) :
    (v ∈ c.buf ∨ v = 0) ∧ ∀ x ∈ ch.buf, x ∈ c.buf := by
  unfold tryRecv at h
  split at h
  · rename_i v0 rest hb
    cases h
    rw [hb]
    exact ⟨Or.inl (by simp), fun x hx => by simp [hx]⟩
  · split at h
    · cases h
      exact ⟨Or.inr rfl, fun x hx => hx⟩
    · cases h

theorem inputs_recv {w w1 : World} {g : Game} {p v : Nat}
    (hI : Inputs w g) (hp : p = g.currPlay ∨ p = g.oppPlay)
    (h : recvReq w p = some (v, w1)) : v ≤ 3 ∧ Inputs w1 g := by
  obtain ⟨pl, ch, hpl, hch, rfl⟩ := recvReq_spec h
  obtain ⟨hv, hsub⟩ := tryRecv_buf hch
  have hlt : p < w.players.length := by
    by_contra hge
    rw [List.getElem?_eq_none (by omega)] at hpl
    cases hpl
  constructor
  · rcases hv with hv | hv
    · exact hI p hp pl hpl v hv
    · omega
  · intro q hq pl2 hpl2 x hx
    by_cases e : p = q
    · subst e
      simp [List.getElem?_set_self hlt] at hpl2
      subst hpl2
      exact hI p hq pl hpl x (hsub x hx)
    · simp [List.getElem?_set_ne e] at hpl2
      exact hI q hq pl2 hpl2 x hx

theorem inputs_roles {w w2 : World} {g g2 : Game} (hp : w2.players = w.players)
    (hr : (g2.currPlay = g.currPlay ∧ g2.oppPlay = g.oppPlay) ∨
      (g2.currPlay = g.oppPlay ∧ g2.oppPlay = g.currPlay))
    (hI : Inputs w g) : Inputs w2 g2 := by
  intro q hq pl hpl x hx
  rw [hp] at hpl
  refine hI q ?_ pl hpl x hx
  rcases hr with ⟨e1, e2⟩ | ⟨e1, e2⟩ <;> rw [e1, e2] at hq <;> tauto

/-- What an iteration of the loop leaves behind: a well-formed match in progress. -/
theorem loopStep_inv {w : World} {g : Game} {vs : List Nat} {i : Nat} (ev : Ev)
    (hs : MatchState w g vs i) (hP : Playing w g) (hI : Inputs w g) (hr : Ready w g ev) :
    ∃ w1 g1 over vs1 i1, loopStep w g 0 ev = some (w1, g1, over) ∧
      (over = 0 ∨ over = INGAME_C ∨ over = DC_C ∨ over = DC_O) ∧
      MatchState w1 g1 vs1 i1 ∧ Playing w1 g1 ∧ Inputs w1 g1 := by
  cases ev with
  | timer =>
    exact ⟨w, g, INGAME_C, vs, i, rfl, Or.inr (Or.inl rfl), hs, hP, hI⟩
  | curr =>
    cases hrecv : recvReq w g.currPlay with
    | none => simp [Ready, hrecv] at hr
    | some r =>
      obtain ⟨v, w1⟩ := r
      obtain ⟨hv, hI1⟩ := inputs_recv hI (Or.inl rfl) hrecv
      have hs1 := matchState_recv hrecv hs
      have hP1 := playing_recv hrecv hP
      by_cases hd : v = DC
      · subst hd
        exact ⟨w1, g, DC_C, vs, i, by simp [loopStep, hrecv], Or.inr (Or.inr (Or.inl rfl)),
          hs1, hP1, hI1⟩
      · have hv3 : v < 3 := by
          unfold DC at hd; omega
        obtain ⟨w2, g2, r, hu, -, hpl, -, hrole, hres, -, vs2, i2, hs2, -⟩ := update_step hs1 hv3
        refine ⟨w2, g2, r, vs2, i2, by simp [loopStep, hrecv, hd, hu], ?_, hs2,
          playing_roles hpl hrole (matchState_timer hs2) hP1, inputs_roles hpl hrole hI1⟩
        rcases hres with e | e
        · exact Or.inl e
        · exact Or.inr (Or.inl e)
  | opp =>
    cases hrecv : recvReq w g.oppPlay with
    | none => simp [Ready, hrecv] at hr
    | some r =>
      obtain ⟨v, w1⟩ := r
      obtain ⟨hv, hI1⟩ := inputs_recv hI (Or.inr rfl) hrecv
      have hs1 := matchState_recv hrecv hs
      have hP1 := playing_recv hrecv hP
      by_cases hd : v = DC
      · subst hd
        exact ⟨w1, g, DC_O, vs, i, by simp [loopStep, hrecv], Or.inr (Or.inr (Or.inr rfl)),
          hs1, hP1, hI1⟩
      · have hv3 : v < 3 := by
          unfold DC at hd; omega
        obtain ⟨w2, g2, r, hu, -, hpl, -, hrole, -, -, vs2, i2, hs2, -⟩ := update_step hs1 hv3
        exact ⟨w2, g2, 0, vs2, i2, by simp [loopStep, hrecv, hd, hu], Or.inl rfl, hs2,
          playing_roles hpl hrole (matchState_timer hs2) hP1, inputs_roles hpl hrole hI1⟩

theorem matchLoop_run {evs : List Ev} :
    ∀ {w : World} {g : Game} {vs : List Nat} {i : Nat},
      MatchState w g vs i → Playing w g → Inputs w g → Sched w g evs →
      (∃ w1 g1 vs1 i1, matchLoop w g evs = some (LoopEnd.waiting w1 g1) ∧
        MatchState w1 g1 vs1 i1 ∧ Playing w1 g1 ∧ Inputs w1 g1) ∨
      (∃ w1 g1 over k, matchLoop w g evs = some (LoopEnd.exited w1 g1 over) ∧
        (over = INGAME_C ∨ over = DC_C ∨ over = DC_O) ∧ k < evs.length ∧
        (∃ wk gk, matchLoop w g (evs.take k) = some (LoopEnd.waiting wk gk)) ∧
        matchLoop w g (evs.take (k + 1)) = some (LoopEnd.exited w1 g1 over) ∧
        Playing w1 g1) := by
  induction evs with
  | nil =>
    intro w g vs i hs hP hI _
    exact Or.inl ⟨w, g, vs, i, rfl, hs, hP, hI⟩
  | cons ev evs ih =>
    intro w g vs i hs hP hI hsch
    obtain ⟨hready, hnext⟩ := hsch
    obtain ⟨w1, g1, over, vs1, i1, hstep, hover, hs1, hP1, hI1⟩ :=
      loopStep_inv ev hs hP hI hready
    by_cases h0 : over = 0
    · subst h0
      have hcons : ∀ l, matchLoop w g (ev :: l) = matchLoop w1 g1 l := by
        intro l
        simp [matchLoop, hstep]
      rcases ih hs1 hP1 hI1 (hnext w1 g1 hstep) with
        ⟨w2, g2, vs2, i2, h2, hs2, hP2, hI2⟩ | ⟨w2, g2, ov, k, h2, hov, hk, ⟨wk, gk, hwk⟩, hex, hP2⟩
      · exact Or.inl ⟨w2, g2, vs2, i2, by rw [hcons, h2], hs2, hP2, hI2⟩
      · refine Or.inr ⟨w2, g2, ov, k + 1, by rw [hcons, h2], hov, by simp; omega,
          ⟨wk, gk, ?_⟩, ?_, hP2⟩
        · rw [List.take_succ_cons, hcons, hwk]
        · rw [List.take_succ_cons, hcons, hex]
    · have hov : over = INGAME_C ∨ over = DC_C ∨ over = DC_O := by
        rcases hover with e | e
        · exact absurd e h0
        · exact e
      have hex : ∀ l, matchLoop w g (ev :: l) = some (LoopEnd.exited w1 g1 over) := by
        intro l
        simp [matchLoop, hstep, h0]
      exact Or.inr ⟨w1, g1, over, 0, hex evs, hov, by simp, ⟨w, g, by simp [matchLoop]⟩,
        by simpa using hex [], hP1⟩

/-! ## Facts about the sample states -/

theorem startState_ok : MatchState startWorld startGame [] 0 :=
  ⟨[0], by simp [chain, startWorld, startGame], by decide, by decide, by decide, by decide,
    by decide, by decide⟩

theorem midState_ok : MatchState midWorld midGame [1, 2] 1 :=
  ⟨[0, 1, 2], by simp [chain, midWorld, midGame], by decide, by decide, by decide, by decide,
    by decide, by decide⟩
theorem midPlaying_ok : Playing midWorld midGame := by decide
theorem busyState_ok : MatchState busyWorld midGame [1, 2] 1 :=
  matchState_frame (w := midWorld) rfl rfl rfl midState_ok

theorem busyInputs_ok : Inputs busyWorld midGame := by
  intro p hp pl hpl v hv
  rcases hp with rfl | rfl
  · have e : busyWorld.players[midGame.currPlay]? = some ⟨⟨[2, 3], false⟩, true⟩ := by decide
    rw [e] at hpl
    cases hpl
    simp at hv
    omega
  · have e : busyWorld.players[midGame.oppPlay]? = some ⟨⟨[0], false⟩, true⟩ := by decide
    rw [e] at hpl
    cases hpl
    simp at hv
    omega

theorem busySched_ok : Sched busyWorld midGame [Ev.opp, Ev.curr, Ev.curr, Ev.timer] := by
  refine ⟨by decide, ?_⟩
  intro w1 g1 h1
  have e1 : loopStep busyWorld midGame 0 Ev.opp =
      some ({ (offer (offer midWorld 0 2) 0 3) with out := [(1, "button0")] }, midGame, 0) := by
    decide
  rw [e1] at h1
  cases h1
  refine ⟨by decide, ?_⟩
  intro w2 g2 h2
  have e2 : loopStep { (offer (offer midWorld 0 2) 0 3) with out := [(1, "button0")] }
      midGame 0 Ev.curr =
      some ({ (offer midWorld 0 3) with out := [(1, "button0"), (1, "button2")] },
        { midGame with prog := some 2 }, 0) := by
    decide
  rw [e2] at h2
  cases h2
  refine ⟨by decide, ?_⟩
  intro w3 g3 h3
  have e3 : loopStep { (offer midWorld 0 3) with out := [(1, "button0"), (1, "button2")] }
      { midGame with prog := some 2 } 0 Ev.curr =
      some ({ midWorld with out := [(1, "button0"), (1, "button2")] },
        { midGame with prog := some 2 }, DC_C) := by
    decide
  rw [e3] at h3
  simp [DC_C] at h3

/-! ## The claims -/

/-- C1: `update` implements the three-step sequence-update algorithm.  For a match state
described by confirmed values `vs`, cursor index `i`, roles and deadline, and a pressed
value `b` in 0..2: at the open slot (`i = vs.length`) it returns 0 with `vs ++ [b]`, cursor 0,
roles swapped and deadline one second; on a matching value it returns 0 with the same
`vs`, cursor `i + 1`, the same roles and deadline one second; otherwise it returns
`INGAME_C`. -/
theorem update_three_steps (w : World) (g : Game) (vs : List Nat) (i b : Nat)
    (hs : MatchState w g vs i) (hb : b < 3) :
    (i = vs.length →
      ∃ w2 g2, update w g b = some (w2, g2, 0) ∧ MatchState w2 g2 (vs ++ [b]) 0 ∧
        g2.currPlay = g.oppPlay ∧ g2.oppPlay = g.currPlay ∧
        deadline w2 g2 = some Second) ∧
    (i ≠ vs.length → vs[i]? = some b →
      ∃ w2 g2, update w g b = some (w2, g2, 0) ∧ MatchState w2 g2 vs (i + 1) ∧
        g2.currPlay = g.currPlay ∧ g2.oppPlay = g.oppPlay ∧
        deadline w2 g2 = some Second) ∧
    (i ≠ vs.length → vs[i]? ≠ some b →
      ∃ w2 g2, update w g b = some (w2, g2, INGAME_C)) := by
  refine ⟨?_, ?_, ?_⟩
  · intro hi
    subst hi
    obtain ⟨w2, g2, h1, h2, h3, h4, h5, -⟩ := update_open hs hb
    exact ⟨w2, g2, h1, h2, h3, h4, h5⟩
  · intro _ hv
    obtain ⟨w2, g2, h1, h2, h3, h4, h5, -, -⟩ := update_match hs hv
    exact ⟨w2, g2, h1, h2, h3, h4, h5⟩
  · intro hi hv
    have hle : i ≤ vs.length := by
      obtain ⟨_, _, _, hle, _⟩ := hs
      exact hle
    exact ⟨_, _, update_mismatch hs (by omega) hv⟩

theorem update_three_steps_witness :
    MatchState midWorld midGame [1, 2] 1 ∧ 2 < 3 ∧
    ∃ w2 g2, update midWorld midGame 2 = some (w2, g2, 0) ∧ MatchState w2 g2 [1, 2] 2 ∧
      g2.currPlay = midGame.currPlay ∧ g2.oppPlay = midGame.oppPlay ∧
      deadline w2 g2 = some Second :=
  ⟨midState_ok, by decide,
    (update_three_steps midWorld midGame [1, 2] 1 2 midState_ok (by decide)).2.1
      (by decide) (by decide)⟩

/-- What the loop does with a press `b` in 0..2 by the non-active Player: it is passed to
`update` and only the returned byte is dropped.  The match stays in progress in every
case.  Sequence, cursor, roles and deadline stay as they were when `b` differs from the
confirmed value under the cursor; at the open slot the press is appended, the cursor
goes to the head, the roles swap and the deadline becomes one second; on a matching
value the cursor advances and the deadline becomes one second. -/
theorem other_press_is_applied (w w1 : World) (g : Game) (vs : List Nat) (i b : Nat)
    (hs : MatchState w g vs i) (hb : b < 3) (hr : recvReq w g.oppPlay = some (b, w1)) :
    ∃ w2 g2, loopStep w g 0 Ev.opp = some (w2, g2, 0) ∧
      (i = vs.length →
        MatchState w2 g2 (vs ++ [b]) 0 ∧ g2.currPlay = g.oppPlay ∧
          g2.oppPlay = g.currPlay ∧ deadline w2 g2 = some Second) ∧
      (i ≠ vs.length → vs[i]? = some b →
        MatchState w2 g2 vs (i + 1) ∧ g2.currPlay = g.currPlay ∧
          g2.oppPlay = g.oppPlay ∧ deadline w2 g2 = some Second) ∧
      (i ≠ vs.length → vs[i]? ≠ some b →
        MatchState w2 g2 vs i ∧ g2 = g ∧ w2.heap = w.heap ∧ w2.timers = w.timers) := by
  have hs1 := matchState_recv hr hs
  have hstep := loopStep_opp_press hb hr
  have hle : i ≤ vs.length := by
    obtain ⟨_, _, _, hle, _⟩ := hs
    exact hle
  obtain ⟨pl, ch, -, -, hw1⟩ := recvReq_spec hr
  by_cases hi : i = vs.length
  · subst hi
    obtain ⟨w2, g2, h1, h2, h3, h4, h5, -⟩ := update_open hs1 hb
    refine ⟨w2, g2, by rw [hstep, h1]; rfl, fun _ => ⟨h2, h3, h4, h5⟩, ?_, ?_⟩ <;>
      intro hne <;> exact absurd rfl hne
  · by_cases hv : vs[i]? = some b
    · obtain ⟨w2, g2, h1, h2, h3, h4, h5, -, -⟩ := update_match hs1 hv
      refine ⟨w2, g2, by rw [hstep, h1]; rfl, fun e => absurd e hi,
        fun _ _ => ⟨h2, h3, h4, h5⟩, fun _ hne => absurd hv hne⟩
    · obtain ⟨w2, h1, h2, h3, h4, -, -⟩ := update_mismatch_frame hs1 (by omega) hv
      refine ⟨w2, g, by rw [hstep, h1]; rfl, fun e => absurd e hi,
        fun _ e => absurd e hv, fun _ _ => ⟨?_, rfl, ?_, ?_⟩⟩
      · exact matchState_frame (w := w1) h2 (by rw [h3]) (by rw [h4]) hs1
      · rw [h2, hw1]
      · rw [h3, hw1]

theorem other_press_is_applied_witness :
    MatchState (offer midWorld 1 2) midGame [1, 2] 1 ∧ 2 < 3 ∧
    recvReq (offer midWorld 1 2) midGame.oppPlay = some (2, midWorld) ∧
    ∃ w2 g2, loopStep (offer midWorld 1 2) midGame 0 Ev.opp = some (w2, g2, 0) ∧
      (1 = [1, 2].length →
        MatchState w2 g2 ([1, 2] ++ [2]) 0 ∧ g2.currPlay = midGame.oppPlay ∧
          g2.oppPlay = midGame.currPlay ∧ deadline w2 g2 = some Second) ∧
      (1 ≠ [1, 2].length → [1, 2][1]? = some 2 →
        MatchState w2 g2 [1, 2] (1 + 1) ∧ g2.currPlay = midGame.currPlay ∧
          g2.oppPlay = midGame.oppPlay ∧ deadline w2 g2 = some Second) ∧
      (1 ≠ [1, 2].length → [1, 2][1]? ≠ some 2 →
        MatchState w2 g2 [1, 2] 1 ∧ g2 = midGame ∧
          w2.heap = (offer midWorld 1 2).heap ∧ w2.timers = (offer midWorld 1 2).timers) :=
  have hs : MatchState (offer midWorld 1 2) midGame [1, 2] 1 :=
    matchState_frame (w := midWorld) rfl rfl rfl midState_ok
  ⟨hs, by decide, by decide,
    other_press_is_applied (offer midWorld 1 2) midWorld midGame [1, 2] 1 2 hs (by decide)
      (by decide)⟩

/-- C2, evaluated where it fails: right after the start of a match between Player 0
(active, sent "starty") and Player 1 (sent "startt"), Player 1 presses button 1.  The
loop passes the press to `update`: it is appended to the sequence as the first move, the
roles swap, the deadline becomes one second and "button1" is written back to Player 1,
so the state is not left as it was. -/
theorem other_press_changes_state :
    MatchState (offer startWorld 1 1) startGame [] 0 ∧
    recvReq (offer startWorld 1 1) startGame.oppPlay = some (1, startWorld) ∧
    loopStep (offer startWorld 1 1) startGame 0 Ev.opp =
      some ({ heap := [⟨1, some 1⟩, ⟨3, none⟩], timers := [⟨Second, false⟩],
              players := [⟨⟨[], false⟩, true⟩, ⟨⟨[], false⟩, true⟩],
              out := [(0, "starty"), (1, "startt"), (1, "button1")], queue := [] },
            { currPlay := 1, oppPlay := 0, timer := 0, seq := some 0, prog := some 0 }, 0) ∧
    ¬ ∃ w2, loopStep (offer startWorld 1 1) startGame 0 Ev.opp = some (w2, startGame, 0) ∧
        w2.heap = (offer startWorld 1 1).heap ∧ w2.timers = (offer startWorld 1 1).timers := by
  have e : loopStep (offer startWorld 1 1) startGame 0 Ev.opp =
      some ({ heap := [⟨1, some 1⟩, ⟨3, none⟩], timers := [⟨Second, false⟩],
              players := [⟨⟨[], false⟩, true⟩, ⟨⟨[], false⟩, true⟩],
              out := [(0, "starty"), (1, "startt"), (1, "button1")], queue := [] },
            { currPlay := 1, oppPlay := 0, timer := 0, seq := some 0, prog := some 0 }, 0) := by
    decide
  refine ⟨matchState_frame (w := startWorld) rfl rfl rfl startState_ok, by decide, e, ?_⟩
  rintro ⟨w2, h, -, -⟩
  rw [e] at h
  simp [startGame] at h

/-- C3, evaluated where it fails: Player 0 is active and Player 1 is not; Player 1
presses button 0.  The one message written is "button0", and it goes to Player 1, the
presser, not to the active Player 0. -/
theorem other_press_echoed_to_presser :
    midGame.currPlay = 0 ∧ midGame.oppPlay = 1 ∧
    recvReq (offer midWorld 1 0) midGame.oppPlay = some (0, midWorld) ∧
    (loopStep (offer midWorld 1 0) midGame 0 Ev.opp).map
      (fun r => sentSince (offer midWorld 1 0) r.1) = some [(1, "button0")] := by
  decide

/-- C4: a wrong press at any replay position ends the match with reason `INGAME_C`.
In a match in progress whose confirmed sequence `vs` is non-empty, with the cursor at any
position `k < vs.length`, when the active Player presses a value `b` in 0..2 other than
`vs[k]`: `update` returns `INGAME_C`, the loop exits on that event whatever events
follow, and `endGame` runs with reason `INGAME_C`. -/
theorem wrong_press_ends_match (w w1 : World) (g : Game) (vs : List Nat) (k b : Nat)
    (evs : List Ev) (hs : MatchState w g vs k) (hP : Playing w g) (hk : k < vs.length)
    (hb : b < 3) (hv : vs[k]? ≠ some b) (hr : recvReq w g.currPlay = some (b, w1)) :
    ∃ w2 w3, update w1 g b = some (w2, g, INGAME_C) ∧
      matchLoop w g (Ev.curr :: evs) = some (LoopEnd.exited w2 g INGAME_C) ∧
      endGame w2 g INGAME_C = some w3 ∧
      playMatch w g (Ev.curr :: evs) = some (Outcome.ended w3 INGAME_C) := by
  obtain ⟨w2, hu, -, ht, hp, -, -⟩ := update_mismatch_frame (matchState_recv hr hs) hk hv
  have hP2 : Playing w2 g := playing_frame hp (by rw [ht]) (playing_recv hr hP)
  obtain ⟨w3, he, -⟩ := endGame_spec INGAME_C hP2
  have hl : matchLoop w g (Ev.curr :: evs) = some (LoopEnd.exited w2 g INGAME_C) := by
    simp [matchLoop, loopStep_curr_press hb hr, hu, INGAME_C]
  refine ⟨w2, w3, hu, hl, he, ?_⟩
  simp [playMatch, hl, he]

theorem wrong_press_ends_match_witness :
    MatchState (offer midWorld 0 0) midGame [1, 2] 1 ∧ Playing (offer midWorld 0 0) midGame ∧
    1 < [1, 2].length ∧ 0 < 3 ∧ [1, 2][1]? ≠ some 0 ∧
    recvReq (offer midWorld 0 0) midGame.currPlay = some (0, midWorld) ∧
    ∃ w2 w3, update midWorld midGame 0 = some (w2, midGame, INGAME_C) ∧
      matchLoop (offer midWorld 0 0) midGame [Ev.curr, Ev.timer] =
        some (LoopEnd.exited w2 midGame INGAME_C) ∧
      endGame w2 midGame INGAME_C = some w3 ∧
      playMatch (offer midWorld 0 0) midGame [Ev.curr, Ev.timer] =
        some (Outcome.ended w3 INGAME_C) :=
  have hs : MatchState (offer midWorld 0 0) midGame [1, 2] 1 :=
    matchState_frame (w := midWorld) rfl rfl rfl midState_ok
  have hP : Playing (offer midWorld 0 0) midGame := by decide
  ⟨hs, hP, by decide, by decide, by decide, by decide,
    wrong_press_ends_match (offer midWorld 0 0) midWorld midGame [1, 2] 1 0 [Ev.timer] hs hP
      (by decide) (by decide) (by decide) (by decide)⟩

/-- C5: `N` correct rounds grow the sequence to length exactly `N`.  From the initial
match state (a single open slot with the cursor on it), for any list `xs` of button
values in 0..2, feeding `update` the presses of `xs.length` rounds, round `j` being the
replay of the first `j - 1` values followed by value `j`, makes every call return 0
and leaves the confirmed sequence equal to `xs`, followed by the open slot. -/
theorem correct_rounds_grow_sequence (w : World) (g : Game) (xs : List Nat)
    (hs : MatchState w g [] 0) (hx : ∀ x ∈ xs, x < 3) :
    ∃ w2 g2 rs, feed w g (rounds xs xs.length) = some (w2, g2, rs) ∧
      rs.length = (rounds xs xs.length).length ∧ (∀ r ∈ rs, r = 0) ∧
      MatchState w2 g2 xs 0 := by
  obtain ⟨w2, g2, rs, hf, hz, hs2⟩ := feed_rounds hx xs.length (Nat.le_refl _) hs
  exact ⟨w2, g2, rs, hf, feed_length hf, hz, by simpa using hs2⟩

theorem correct_rounds_grow_sequence_witness :
    MatchState startWorld startGame [] 0 ∧ (∀ x ∈ [1, 2, 0], x < 3) ∧
    ∃ w2 g2 rs, feed startWorld startGame (rounds [1, 2, 0] [1, 2, 0].length) =
        some (w2, g2, rs) ∧
      rs.length = (rounds [1, 2, 0] [1, 2, 0].length).length ∧ (∀ r ∈ rs, r = 0) ∧
      MatchState w2 g2 [1, 2, 0] 0 :=
  ⟨startState_ok, by decide,
    correct_rounds_grow_sequence startWorld startGame [1, 2, 0] startState_ok (by decide)⟩

/-- C6: `endGame` broadcasts the outcome by reason.  In a match between two distinct
Players: with reason `INGAME_C` it writes exactly "lose" to the active Player and
"win" to the other; with `DC_C` exactly "win" to the other Player; with `DC_O` exactly
"win" to the active Player.  In each case one "win" and at most one "lose" are
written, never to the same Player. -/
theorem endGame_broadcast (w : World) (g : Game) (hP : Playing w g) :
    (∃ w3, endGame w g INGAME_C = some w3 ∧
      w3.out = w.out ++ [(g.currPlay, "lose"), (g.oppPlay, "win")]) ∧
    (∃ w3, endGame w g DC_C = some w3 ∧ w3.out = w.out ++ [(g.oppPlay, "win")]) ∧
    (∃ w3, endGame w g DC_O = some w3 ∧ w3.out = w.out ++ [(g.currPlay, "win")]) ∧
    (∀ reason, reason = INGAME_C ∨ reason = DC_C ∨ reason = DC_O →
      ∃ w3, endGame w g reason = some w3 ∧
        countText (sentSince w w3) "win" = 1 ∧ countText (sentSince w w3) "lose" ≤ 1 ∧
        ∀ p, (p, "win") ∈ sentSince w w3 → (p, "lose") ∉ sentSince w w3) := by
  have hne : g.currPlay ≠ g.oppPlay := hP.1
  refine ⟨?_, ?_, ?_, ?_⟩
  · obtain ⟨w3, he, ho, -⟩ := endGame_spec INGAME_C hP
    exact ⟨w3, he, by simpa [verdict] using ho⟩
  · obtain ⟨w3, he, ho, -⟩ := endGame_spec DC_C hP
    exact ⟨w3, he, by simpa [verdict, DC_C, INGAME_C] using ho⟩
  · obtain ⟨w3, he, ho, -⟩ := endGame_spec DC_O hP
    exact ⟨w3, he, by simpa [verdict, DC_C, DC_O, INGAME_C] using ho⟩
  · intro reason hr
    obtain ⟨w3, he, ho, -⟩ := endGame_spec reason hP
    refine ⟨w3, he, ?_⟩
    rw [sentSince_append w w3 _ ho]
    rcases hr with rfl | rfl | rfl
    · simp [verdict, countText]
      intro e
      exact absurd e.symm hne
    · simp [verdict, countText, DC_C, INGAME_C]
    · simp [verdict, countText, DC_C, DC_O, INGAME_C]

theorem endGame_broadcast_witness :
    Playing midWorld midGame ∧
    ((∃ w3, endGame midWorld midGame INGAME_C = some w3 ∧
      w3.out = midWorld.out ++ [(midGame.currPlay, "lose"), (midGame.oppPlay, "win")]) ∧
    (∃ w3, endGame midWorld midGame DC_C = some w3 ∧
      w3.out = midWorld.out ++ [(midGame.oppPlay, "win")]) ∧
    (∃ w3, endGame midWorld midGame DC_O = some w3 ∧
      w3.out = midWorld.out ++ [(midGame.currPlay, "win")]) ∧
    (∀ reason, reason = INGAME_C ∨ reason = DC_C ∨ reason = DC_O →
      ∃ w3, endGame midWorld midGame reason = some w3 ∧
        countText (sentSince midWorld w3) "win" = 1 ∧
        countText (sentSince midWorld w3) "lose" ≤ 1 ∧
        ∀ p, (p, "win") ∈ sentSince midWorld w3 → (p, "lose") ∉ sentSince midWorld w3)) :=
  ⟨midPlaying_ok, endGame_broadcast midWorld midGame midPlaying_ok⟩

/-- C7: the deadline budget.  In a match started by `initGame` (deadline 30 seconds), after
any presses of values in 0..2 passed to `update`: if the last call returned 0 the
deadline is exactly one second; the deadline is never any value but 30 seconds or one
second; and it is 30 seconds if and only if no call has returned 0, that is, no press
has been accepted yet. -/
theorem deadline_budget (w w0 : World) (g0 : Game) (p1 p2 : Nat) (bs : List Nat)
    (hstart : initGameStart w p1 p2 = some (Start.started w0 g0)) (hb : ∀ b ∈ bs, b < 3) :
    deadline w0 g0 = some (30 * Second) ∧
    ∃ w2 g2 rs, feed w0 g0 bs = some (w2, g2, rs) ∧ rs.length = bs.length ∧
      (rs.getLast? = some 0 → deadline w2 g2 = some Second) ∧
      (deadline w2 g2 = some (30 * Second) ∨ deadline w2 g2 = some Second) ∧
      (deadline w2 g2 = some (30 * Second) ↔ ∀ r ∈ rs, r ≠ 0) := by
  obtain ⟨hs, hd, -⟩ := initGameStart_started hstart
  obtain ⟨w2, g2, rs, hf, k1, k2, k3⟩ := feed_deadline hs hb
  refine ⟨hd, w2, g2, rs, hf, feed_length hf, k3, ?_, ?_⟩
  · by_cases h0 : 0 ∈ rs
    · exact Or.inr (k2 h0)
    · exact Or.inl ((k1 (fun x hx e0 => h0 (e0 ▸ hx))).trans hd)
  · constructor
    · intro h30 r hr e0
      have := k2 (e0 ▸ hr)
      rw [this] at h30
      simp [Second] at h30
    · intro hall
      exact (k1 hall).trans hd

theorem deadline_budget_witness :
    initGameStart idleWorld 0 1 = some (Start.started startWorld startGame) ∧
    (∀ b ∈ [1, 1, 0], b < 3) ∧
    (deadline startWorld startGame = some (30 * Second) ∧
    ∃ w2 g2 rs, feed startWorld startGame [1, 1, 0] = some (w2, g2, rs) ∧
      rs.length = [1, 1, 0].length ∧
      (rs.getLast? = some 0 → deadline w2 g2 = some Second) ∧
      (deadline w2 g2 = some (30 * Second) ∨ deadline w2 g2 = some Second) ∧
      (deadline w2 g2 = some (30 * Second) ↔ ∀ r ∈ rs, r ≠ 0)) :=
  ⟨by decide, by decide,
    deadline_budget idleWorld startWorld startGame 0 1 [1, 1, 0] (by decide) (by decide)⟩

/-- C8, evaluated where it fails: Players 0 and 1 wait on the queue and the connection
of either fails.  The reader ends without offering a disconnect, because the Player is
not in a match; the Players are paired, and `initGame` starts the match: "starty" and
"startt" are written, both Players are marked in-match, nobody is put back on the
queue. -/
theorem queued_disconnect_starts_match :
    readerStep lobby 0 none = some (lobby, false) ∧
    readerStep lobby 1 none = some (lobby, false) ∧
    pair lobby = some (idleWorld, 0, 1) ∧
    initGame idleWorld 0 1 [] = some (Outcome.running startWorld startGame) ∧
    startWorld.out = [(0, "starty"), (1, "startt")] ∧
    flagIs startWorld 0 true ∧ flagIs startWorld 1 true ∧ startWorld.queue = [] ∧
    (initGame idleWorld 1 0 []).map
      (fun r => match r with
        | Outcome.running w2 _ => (w2.out, w2.queue)
        | _ => ([], [])) = some ([(1, "starty"), (0, "startt")], []) := by
  decide

/-- C9: the start of `initGame` aborts on a pending disconnect.  For two distinct Players
`p1`, `p2` that are not in a match: if a disconnect (value 3) is pending on `p1.req` then
`initGame` puts `p2` on the queue and returns; if none is pending on `p1` but one is on
`p2` it puts `p1` on the queue and returns; either way no timer is created, no message
is written and both `inGame` flags stay false.  If none is pending on either, the match
starts: the sequence is a single open slot with the cursor on it, the deadline is 30
seconds, `p1` is sent "starty", `p2` is sent "startt", and both are marked in-match. -/
theorem start_aborts_on_disconnect (w : World) (p1 p2 : Nat)
    (h1 : flagIs w p1 false) (h2 : flagIs w p2 false) (hne : p1 ≠ p2) :
    (pendingDC w p1 →
      ∃ w2, (∀ evs, initGame w p1 p2 evs = some (Outcome.requeued w2)) ∧
        w2.queue = w.queue ++ [p2] ∧ w2.timers = w.timers ∧ w2.out = w.out ∧
        flagIs w2 p1 false ∧ flagIs w2 p2 false) ∧
    (¬ pendingDC w p1 → pendingDC w p2 →
      ∃ w2, (∀ evs, initGame w p1 p2 evs = some (Outcome.requeued w2)) ∧
        w2.queue = w.queue ++ [p1] ∧ w2.timers = w.timers ∧ w2.out = w.out ∧
        flagIs w2 p1 false ∧ flagIs w2 p2 false) ∧
    (¬ pendingDC w p1 → ¬ pendingDC w p2 →
      ∃ w2 g, initGameStart w p1 p2 = some (Start.started w2 g) ∧
        (∀ evs, initGame w p1 p2 evs = playMatch w2 g evs) ∧
        MatchState w2 g [] 0 ∧ deadline w2 g = some (30 * Second) ∧
        g.currPlay = p1 ∧ g.oppPlay = p2 ∧
        w2.out = w.out ++ [(p1, "starty"), (p2, "startt")] ∧
        flagIs w2 p1 true ∧ flagIs w2 p2 true ∧ w2.queue = w.queue) := by
  refine ⟨?_, ?_, ?_⟩
  · intro hd
    obtain ⟨w2, e, hq, ht, -, ho, hf⟩ := start_abort_first p2 h1 hd
    exact ⟨w2, fun evs => by simp [initGame, e], hq, ht, ho, hf _ _ h1, hf _ _ h2⟩
  · intro hn hd
    obtain ⟨w2, e, hq, ht, -, ho, hf⟩ := start_abort_second h1 h2 hn hd
    exact ⟨w2, fun evs => by simp [initGame, e], hq, ht, ho, hf _ _ h1, hf _ _ h2⟩
  · intro hn1 hn2
    obtain ⟨w2, g, e⟩ := start_go h1 h2 hne hn1 hn2
    obtain ⟨a1, a2, a3, a4, a5, a6, a7, a8⟩ := initGameStart_started e
    exact ⟨w2, g, e, fun evs => by simp [initGame, e], a1, a2, a3, a4, a5, a6, a7, a8⟩

theorem start_aborts_on_disconnect_witness :
    flagIs (offer idleWorld 0 3) 0 false ∧ flagIs (offer idleWorld 0 3) 1 false ∧ 0 ≠ 1 ∧
    pendingDC (offer idleWorld 0 3) 0 ∧
    ∃ w2, (∀ evs, initGame (offer idleWorld 0 3) 0 1 evs = some (Outcome.requeued w2)) ∧
      w2.queue = (offer idleWorld 0 3).queue ++ [1] ∧
      w2.timers = (offer idleWorld 0 3).timers ∧ w2.out = (offer idleWorld 0 3).out ∧
      flagIs w2 0 false ∧ flagIs w2 1 false :=
  ⟨by decide, by decide, by decide, by decide,
    (start_aborts_on_disconnect (offer idleWorld 0 3) 0 1 (by decide) (by decide)
      (by decide)).1 (by decide)⟩

/-- C10: disconnect of the active Player during a match.  When the disconnect value 3
arrives on the active Player's channel, `update` is not called (nothing is written and
the sequence and cursor are as before), the loop exits with reason `DC_C`, and
`endGame` writes exactly "win" to the other Player and nothing to the disconnected
one. -/
theorem active_disconnect_ends_match (w w1 : World) (g : Game) (vs : List Nat) (i : Nat)
    (evs : List Ev) (hs : MatchState w g vs i) (hP : Playing w g)
    (hr : recvReq w g.currPlay = some (DC, w1)) :
    loopStep w g 0 Ev.curr = some (w1, g, DC_C) ∧ MatchState w1 g vs i ∧
    w1.heap = w.heap ∧ w1.out = w.out ∧
    ∃ w3, playMatch w g (Ev.curr :: evs) = some (Outcome.ended w3 DC_C) ∧
      w3.out = w.out ++ [(g.oppPlay, "win")] ∧ w3.heap = w.heap ∧
      ∀ m, (g.currPlay, m) ∉ sentSince w w3 := by
  have hstep : loopStep w g 0 Ev.curr = some (w1, g, DC_C) := by
    simp [loopStep, hr]
  obtain ⟨pl, ch, -, -, hw1⟩ := recvReq_spec hr
  have hh : w1.heap = w.heap := by rw [hw1]
  have ho : w1.out = w.out := by rw [hw1]
  obtain ⟨w3, he, ho3, hh3, -⟩ := endGame_spec DC_C (playing_recv hr hP)
  have hout : w3.out = w.out ++ [(g.oppPlay, "win")] := by
    rw [ho3, ho]
    simp [verdict, DC_C, INGAME_C]
  refine ⟨hstep, matchState_recv hr hs, hh, ho, w3, ?_, hout, hh3.trans hh, ?_⟩
  · have hl : matchLoop w g (Ev.curr :: evs) = some (LoopEnd.exited w1 g DC_C) := by
      simp [matchLoop, hstep, DC_C]
    simp [playMatch, hl, he]
  · intro m hm
    rw [sentSince_append w w3 _ hout] at hm
    simp at hm
    exact hP.1 hm.1

theorem active_disconnect_ends_match_witness :
    MatchState (offer midWorld 0 3) midGame [1, 2] 1 ∧ Playing (offer midWorld 0 3) midGame ∧
    recvReq (offer midWorld 0 3) midGame.currPlay = some (DC, midWorld) ∧
    (loopStep (offer midWorld 0 3) midGame 0 Ev.curr = some (midWorld, midGame, DC_C) ∧
    MatchState midWorld midGame [1, 2] 1 ∧
    midWorld.heap = (offer midWorld 0 3).heap ∧ midWorld.out = (offer midWorld 0 3).out ∧
    ∃ w3, playMatch (offer midWorld 0 3) midGame [Ev.curr] = some (Outcome.ended w3 DC_C) ∧
      w3.out = (offer midWorld 0 3).out ++ [(midGame.oppPlay, "win")] ∧
      w3.heap = (offer midWorld 0 3).heap ∧
      ∀ m, (midGame.currPlay, m) ∉ sentSince (offer midWorld 0 3) w3) :=
  have hs : MatchState (offer midWorld 0 3) midGame [1, 2] 1 :=
    matchState_frame (w := midWorld) rfl rfl rfl midState_ok
  ⟨hs, by decide, by decide,
    active_disconnect_ends_match (offer midWorld 0 3) midWorld midGame [1, 2] 1 [] hs
      (by decide) (by decide)⟩

/-- C11: the end-to-end scenario.  Players `A` (dequeued first) and `B` are distinct, not
in a match, with open action channels on which nothing is pending.  `initGame` starts
the match and writes "starty" to `A` and "startt" to `B`.  Then A:1 writes "button1"
to `B`, the sequence is 1 and `B` is active; B:1 leaves the cursor on the open slot
with `B` still active; B:2 makes the sequence 1, 2 with `A` active; A:0 is rejected,
the loop exits, and `endGame` writes "lose" to `A` and "win" to `B`. -/
theorem end_to_end_scenario (w : World) (A B : Nat)
    (hA : w.players[A]? = some ⟨⟨[], false⟩, false⟩)
    (hB : w.players[B]? = some ⟨⟨[], false⟩, false⟩) (hne : A ≠ B) :
    ∃ w0 g0 w1 g1 w2 g2 w3 g3 w4 w5,
      initGameStart w A B = some (Start.started w0 g0) ∧
      w0.out = w.out ++ [(A, "starty"), (B, "startt")] ∧ g0.currPlay = A ∧
      press w0 g0 A "button1" = some (w1, g1, 0) ∧
      w1.out = w0.out ++ [(B, "button1")] ∧ MatchState w1 g1 [1] 0 ∧ g1.currPlay = B ∧
      press w1 g1 B "button1" = some (w2, g2, 0) ∧
      w2.out = w1.out ++ [(A, "button1")] ∧ MatchState w2 g2 [1] 1 ∧ g2.currPlay = B ∧
      press w2 g2 B "button2" = some (w3, g3, 0) ∧
      w3.out = w2.out ++ [(A, "button2")] ∧ MatchState w3 g3 [1, 2] 0 ∧ g3.currPlay = A ∧
      press w3 g3 A "button0" = some (w4, g3, INGAME_C) ∧
      w4.out = w3.out ++ [(B, "button0")] ∧
      (∀ evs, playMatch (offer w3 A 0) g3 (Ev.curr :: evs) =
        some (Outcome.ended w5 INGAME_C)) ∧
      endGame w4 g3 INGAME_C = some w5 ∧ w5.out = w4.out ++ [(A, "lose"), (B, "win")] := by
  obtain ⟨w0, g0, e0, pA0, pB0⟩ := start_clean hA hB hne
  obtain ⟨hs0, -, c0, o0, out0, -, -, -⟩ := initGameStart_started e0
  have d0 : decodeButton "button0" = 0 := by decide
  have d1 : decodeButton "button1" = 1 := by decide
  have d2 : decodeButton "button2" = 2 := by decide
  have m0 : buttonMsg 0 = "button0" := by decide
  have m1 : buttonMsg 1 = "button1" := by decide
  have m2 : buttonMsg 2 = "button2" := by decide
  -- A presses 1
  obtain ⟨w1, g1, u1, hs1, c1, o1, -, pl1, -, out1, -, -⟩ :=
    update_open (b := 1) hs0 (by decide)
  have q1 := (press_active (g := g0) (m := "button1") pA0 c0 (by simp)).1
  rw [d1, u1] at q1
  rw [o0, m1] at out1
  rw [o0] at c1
  rw [c0] at o1
  have pB1 : w1.players[B]? = some ⟨⟨[], false⟩, true⟩ := by rw [pl1]; exact pB0
  have pA1 : w1.players[A]? = some ⟨⟨[], false⟩, true⟩ := by rw [pl1]; exact pA0
  -- B replays 1
  obtain ⟨w2, g2, u2, hs2, c2, o2, -, ⟨pl2, -, out2, -, -⟩, -⟩ :=
    update_match (b := 1) (i := 0) hs1 (by simp)
  have q2 := (press_active (g := g1) (m := "button1") pB1 c1 (by simp)).1
  rw [d1, u2] at q2
  rw [o1, m1] at out2
  rw [c1] at c2
  rw [o1] at o2
  have pB2 : w2.players[B]? = some ⟨⟨[], false⟩, true⟩ := by rw [pl2]; exact pB1
  have pA2 : w2.players[A]? = some ⟨⟨[], false⟩, true⟩ := by rw [pl2]; exact pA1
  -- B presses 2
  obtain ⟨w3, g3, u3, hs3, c3, o3, -, pl3, -, out3, -, -⟩ :=
    update_open (b := 2) hs2 (by decide)
  have q3 := (press_active (g := g2) (m := "button2") pB2 c2 (by simp)).1
  rw [d2, u3] at q3
  rw [o2, m2] at out3
  rw [o2] at c3
  rw [c2] at o3
  have pB3 : w3.players[B]? = some ⟨⟨[], false⟩, true⟩ := by rw [pl3]; exact pB2
  have pA3 : w3.players[A]? = some ⟨⟨[], false⟩, true⟩ := by rw [pl3]; exact pA2
  -- A presses 0
  have hs3b : MatchState w3 g3 [1, 2] 0 := by simpa using hs3
  obtain ⟨w4, u4, -, t4, pl4, -, out4⟩ :=
    update_mismatch_frame (b := 0) hs3b (by decide) (by simp)
  obtain ⟨q4, r4, l4⟩ := press_active (g := g3) (m := "button0") pA3 c3 (by simp)
  rw [d0, u4] at q4
  rw [d0] at r4
  rw [d0, u4] at l4
  rw [o3, m0] at out4
  -- the match ends
  have hP4 : Playing w4 g3 := by
    refine ⟨by rw [c3, o3]; exact hne, ?_, ?_, ?_⟩
    · unfold reqOpen; rw [c3, pl4, pA3]; rfl
    · unfold reqOpen; rw [o3, pl4, pB3]; rfl
    · rw [t4]; exact matchState_timer hs3
  obtain ⟨w5, e5, out5, -⟩ := endGame_spec INGAME_C hP4
  have out5b : w5.out = w4.out ++ [(A, "lose"), (B, "win")] := by
    rw [out5]; simp [verdict, c3, o3]
  refine ⟨w0, g0, w1, g1, w2, g2, w3, g3, w4, w5, e0, out0, c0, q1, out1, by simpa using hs1,
    c1, q2, out2, hs2, c2, q3, out3, hs3b, c3, q4, out4, ?_, e5, out5b⟩
  intro evs
  have hl : matchLoop (offer w3 A 0) g3 (Ev.curr :: evs) =
      some (LoopEnd.exited w4 g3 INGAME_C) := by
    simp [matchLoop, l4, INGAME_C]
  simp [playMatch, hl, e5]

theorem end_to_end_scenario_witness :
    idleWorld.players[0]? = some ⟨⟨[], false⟩, false⟩ ∧
    idleWorld.players[1]? = some ⟨⟨[], false⟩, false⟩ ∧ 0 ≠ 1 ∧
    ∃ w0 g0 w1 g1 w2 g2 w3 g3 w4 w5,
      initGameStart idleWorld 0 1 = some (Start.started w0 g0) ∧
      w0.out = idleWorld.out ++ [(0, "starty"), (1, "startt")] ∧ g0.currPlay = 0 ∧
      press w0 g0 0 "button1" = some (w1, g1, 0) ∧
      w1.out = w0.out ++ [(1, "button1")] ∧ MatchState w1 g1 [1] 0 ∧ g1.currPlay = 1 ∧
      press w1 g1 1 "button1" = some (w2, g2, 0) ∧
      w2.out = w1.out ++ [(0, "button1")] ∧ MatchState w2 g2 [1] 1 ∧ g2.currPlay = 1 ∧
      press w2 g2 1 "button2" = some (w3, g3, 0) ∧
      w3.out = w2.out ++ [(0, "button2")] ∧ MatchState w3 g3 [1, 2] 0 ∧ g3.currPlay = 0 ∧
      press w3 g3 0 "button0" = some (w4, g3, INGAME_C) ∧
      w4.out = w3.out ++ [(1, "button0")] ∧
      (∀ evs, playMatch (offer w3 0 0) g3 (Ev.curr :: evs) =
        some (Outcome.ended w5 INGAME_C)) ∧
      endGame w4 g3 INGAME_C = some w5 ∧ w5.out = w4.out ++ [(0, "lose"), (1, "win")] :=
  ⟨by decide, by decide, by decide,
    end_to_end_scenario idleWorld 0 1 (by decide) (by decide) (by decide)⟩

/-- C12: the sequence invariant.  In every state reached from the initial state (one open
slot, cursor on it) by calls of `update` on values in 0..2, accepted or rejected: the
state is a `MatchState`, that is, the list at `seq` is finite, holds confirmed values
each in 0..2 followed by one open-slot node (value 3) which is its last node, and the
cursor `prog` is a node of that list, in particular not nil; its description by
confirmed values and cursor index is unique; and after any further call the confirmed
values before the call are an initial segment of those after it. -/
theorem sequence_invariant (w : World) (g : Game) (bs : List Nat)
    (hs : MatchState w g [] 0) (hb : ∀ b ∈ bs, b < 3) :
    ∃ w2 g2 rs vs2 i2, feed w g bs = some (w2, g2, rs) ∧ MatchState w2 g2 vs2 i2 ∧
      g2.prog ≠ none ∧
      (∀ vs i, MatchState w2 g2 vs i → vs = vs2 ∧ i = i2) ∧
      ∀ b, b < 3 →
        ∃ w3 g3 r vs3 i3, update w2 g2 b = some (w3, g3, r) ∧ MatchState w3 g3 vs3 i3 ∧
          g3.prog ≠ none ∧ ∃ t, vs3 = vs2 ++ t := by
  obtain ⟨w2, g2, rs, vs2, i2, hf, hs2, -⟩ := feed_invariant hs hb
  refine ⟨w2, g2, rs, vs2, i2, hf, hs2, matchState_prog hs2,
    fun vs i h => matchState_unique h hs2, ?_⟩
  intro b hb3
  obtain ⟨w3, g3, r, hu, -, -, -, -, -, -, vs3, i3, hs3, t, e⟩ := update_step hs2 hb3
  exact ⟨w3, g3, r, vs3, i3, hu, hs3, matchState_prog hs3, t, e⟩

theorem sequence_invariant_witness :
    MatchState startWorld startGame [] 0 ∧ (∀ b ∈ [1, 0, 1, 2], b < 3) ∧
    ∃ w2 g2 rs vs2 i2, feed startWorld startGame [1, 0, 1, 2] = some (w2, g2, rs) ∧
      MatchState w2 g2 vs2 i2 ∧ g2.prog ≠ none ∧
      (∀ vs i, MatchState w2 g2 vs i → vs = vs2 ∧ i = i2) ∧
      ∀ b, b < 3 →
        ∃ w3 g3 r vs3 i3, update w2 g2 b = some (w3, g3, r) ∧ MatchState w3 g3 vs3 i3 ∧
          g3.prog ≠ none ∧ ∃ t, vs3 = vs2 ++ t :=
  ⟨startState_ok, by decide,
    sequence_invariant startWorld startGame [1, 0, 1, 2] startState_ok (by decide)⟩

/-- C13: the liveness probe.  For every Player `pl` that exists, in a match or not, on the
message "here" the reader writes exactly one message, "seen", to that Player, leaves
every Player record (action channel and `inGame` flag), the heap, the timers and the
queue as they were, and keeps reading; every match state stays as it was. -/
theorem liveness_probe (w : World) (pl : Nat) (hpl : pl < w.players.length) :
    ∃ w2, readerStep w pl (some "here") = some (w2, true) ∧
      w2.out = w.out ++ [(pl, "seen")] ∧ w2.players = w.players ∧
      w2.heap = w.heap ∧ w2.timers = w.timers ∧ w2.queue = w.queue ∧
      (∀ g vs i, MatchState w g vs i → MatchState w2 g vs i) ∧
      (∀ g, deadline w2 g = deadline w g) := by
  refine ⟨{ w with out := w.out ++ [(pl, "seen")] }, ?_, rfl, rfl, rfl, rfl, rfl, ?_, ?_⟩
  · simp [readerStep, write, hpl]
  · intro g vs i hs
    exact matchState_frame (w := w) rfl rfl rfl hs
  · intro g
    rfl

theorem liveness_probe_witness :
    (1 : Nat) < midWorld.players.length ∧
    ∃ w2, readerStep midWorld 1 (some "here") = some (w2, true) ∧
      w2.out = midWorld.out ++ [(1, "seen")] ∧ w2.players = midWorld.players ∧
      w2.heap = midWorld.heap ∧ w2.timers = midWorld.timers ∧ w2.queue = midWorld.queue ∧
      (∀ g vs i, MatchState midWorld g vs i → MatchState w2 g vs i) ∧
      (∀ g, deadline w2 g = deadline midWorld g) :=
  ⟨by decide, liveness_probe midWorld 1 (by decide)⟩

/-- C14, as amended: reader forwarding.  For an existing Player `pl` with record `P` and
every received message `m`: while the action channel `pl.req` has not been closed, if
`P.inGame` holds and `m` is one of "button0", "button1", "button2" the reader offers
exactly one value on `pl.req`, the digit of `m`, which is below 3 and so never the
disconnect code, writes nothing and keeps reading; and whether or not the channel has
been closed, in every case other than a button received in a match the reader keeps
reading and no Player record changes, so nothing is put on any channel, and unless `m`
is "here" nothing is written either, the world staying as it was. -/
theorem reader_forwarding (w : World) (pl : Nat) (P : Player) (m : String)
    (hP : w.players[pl]? = some P) :
    (P.req.closed = false → P.inGame = true →
      (m = "button0" ∨ m = "button1" ∨ m = "button2") →
      ∃ w2, readerStep w pl (some m) = some (w2, true) ∧
        w2.players[pl]? = some ⟨⟨P.req.buf ++ [decodeButton m], false⟩, true⟩ ∧
        (∀ q : Nat, q ≠ pl → w2.players[q]? = w.players[q]?) ∧
        w2.out = w.out ∧ w2.heap = w.heap ∧ w2.timers = w.timers ∧ w2.queue = w.queue ∧
        decodeButton m < 3 ∧ decodeButton m ≠ DC ∧ buttonMsg (decodeButton m) = m) ∧
    (¬ (P.inGame = true ∧ (m = "button0" ∨ m = "button1" ∨ m = "button2")) →
      ∃ w2, readerStep w pl (some m) = some (w2, true) ∧ w2.players = w.players ∧
        (m ≠ "here" → w2 = w)) := by
  have hlt : pl < w.players.length := by
    by_contra hge
    rw [List.getElem?_eq_none (by omega)] at hP
    cases hP
  constructor
  · intro ho hin hm
    have hne : m ≠ "here" := by
      rcases hm with rfl | rfl | rfl <;> decide
    have hd : decodeButton m < 3 ∧ buttonMsg (decodeButton m) = m := by
      rcases hm with rfl | rfl | rfl <;> decide
    have hDC : decodeButton m ≠ DC := by unfold DC; omega
    refine ⟨{ w with players := w.players.set pl ⟨⟨P.req.buf ++ [decodeButton m], false⟩, true⟩ },
      ?_, ?_, ?_, rfl, rfl, rfl, rfl, hd.1, hDC, hd.2⟩
    · have hP2 : P = ⟨⟨P.req.buf, false⟩, true⟩ := by
        obtain ⟨⟨b, c⟩, f⟩ := P
        simp at ho hin
        simp [ho, hin]
      rw [hP2] at hP
      simp [readerStep, hne, hm, hP, sendReq]
    · simp [List.getElem?_set_self hlt]
    · intro q hq
      simp [List.getElem?_set_ne (Ne.symm hq)]
  · intro hnot
    by_cases hh : m = "here"
    · subst hh
      exact ⟨{ w with out := w.out ++ [(pl, "seen")] }, by simp [readerStep, write, hlt], rfl,
        fun e => absurd rfl e⟩
    · by_cases hm : m = "button0" ∨ m = "button1" ∨ m = "button2"
      · have hin : ¬ P.inGame = true := fun e => hnot ⟨e, hm⟩
        exact ⟨w, by simp [readerStep, hh, hm, hP, hin], rfl, fun _ => rfl⟩
      · exact ⟨w, by simp [readerStep, hh, hm], rfl, fun _ => rfl⟩

theorem reader_forwarding_witness :
    midWorld.players[1]? = some ⟨⟨[], false⟩, true⟩ ∧
    readerStep midWorld 1 (some "button2") = some (offer midWorld 1 2, true) ∧
    readerStep idleWorld 1 (some "button2") = some (idleWorld, true) ∧
    readerStep midWorld 1 (some "button7") = some (midWorld, true) ∧
    endedWorld.players[1]? = some ⟨⟨[], true⟩, false⟩ ∧
    readerStep endedWorld 1 (some "button2") = some (endedWorld, true) ∧
    (((⟨⟨[], false⟩, true⟩ : Player).req.closed = false →
      (⟨⟨[], false⟩, true⟩ : Player).inGame = true →
      ("button2" = "button0" ∨ "button2" = "button1" ∨ "button2" = "button2") →
      ∃ w2, readerStep midWorld 1 (some "button2") = some (w2, true) ∧
        w2.players[1]? =
          some ⟨⟨(⟨⟨[], false⟩, true⟩ : Player).req.buf ++ [decodeButton "button2"], false⟩,
            true⟩ ∧
        (∀ q : Nat, q ≠ 1 → w2.players[q]? = midWorld.players[q]?) ∧
        w2.out = midWorld.out ∧ w2.heap = midWorld.heap ∧ w2.timers = midWorld.timers ∧
        w2.queue = midWorld.queue ∧
        decodeButton "button2" < 3 ∧ decodeButton "button2" ≠ DC ∧
        buttonMsg (decodeButton "button2") = "button2") ∧
    (¬ ((⟨⟨[], false⟩, true⟩ : Player).inGame = true ∧
        ("button2" = "button0" ∨ "button2" = "button1" ∨ "button2" = "button2")) →
      ∃ w2, readerStep midWorld 1 (some "button2") = some (w2, true) ∧
        w2.players = midWorld.players ∧ ("button2" ≠ "here" → w2 = midWorld))) :=
  ⟨by decide, by decide, by decide, by decide, by decide, by decide,
    reader_forwarding midWorld 1 ⟨⟨[], false⟩, true⟩ "button2" (by decide)⟩

/-- C14, as stated, fails: `endGame` closes both action channels (main.go 182-183) before
it clears the `inGame` flags (184-185).  In between, Player 1 is still marked in-match
and its channel is closed; when its reader then receives "button1" the send on the
closed channel panics: no value is put on the channel and the reader does not go on. -/
theorem reader_send_on_closed :
    closingWorld.players[1]? = some ⟨⟨[], true⟩, true⟩ ∧
    readerStep closingWorld 1 (some "button1") = none ∧
    ¬ ∃ w2, readerStep closingWorld 1 (some "button1") = some (w2, true) := by
  have e : readerStep closingWorld 1 (some "button1") = none := by decide
  refine ⟨by decide, e, ?_⟩
  rintro ⟨w2, h⟩
  rw [e] at h
  cases h

/-- C15: exactly one terminal reason and one transition to the end.  For a match in
progress (well-formed sequence, two distinct Players with open channels, a timer,
reader-sent values on the channels): each event that can be taken keeps the match in
progress (reason 0) or yields one of the three distinct reasons `INGAME_C`, `DC_C`,
`DC_O`; on every list of events that can be taken the loop either is still waiting, or
it stopped at the first event `k` that yielded a reason, leaving later events untaken,
and `endGame` then ran with that reason, closed both action channels (they were open,
and closing a closed channel would fail), cleared both `inGame` flags and stopped the
timer. -/
theorem one_terminal_reason (w : World) (g : Game) (vs : List Nat) (i : Nat)
    (hs : MatchState w g vs i) (hP : Playing w g) (hI : Inputs w g) :
    (INGAME_C ≠ 0 ∧ DC_C ≠ 0 ∧ DC_O ≠ 0 ∧ INGAME_C ≠ DC_C ∧ INGAME_C ≠ DC_O ∧ DC_C ≠ DC_O) ∧
    (∀ ev, Ready w g ev →
      ∃ w1 g1 over, loopStep w g 0 ev = some (w1, g1, over) ∧
        (over = 0 ∨ over = INGAME_C ∨ over = DC_C ∨ over = DC_O)) ∧
    (∀ evs, Sched w g evs →
      (∃ w1 g1, matchLoop w g evs = some (LoopEnd.waiting w1 g1) ∧
        playMatch w g evs = some (Outcome.running w1 g1)) ∨
      (∃ w1 g1 over k w2, matchLoop w g evs = some (LoopEnd.exited w1 g1 over) ∧
        (over = INGAME_C ∨ over = DC_C ∨ over = DC_O) ∧ k < evs.length ∧
        (∃ wk gk, matchLoop w g (evs.take k) = some (LoopEnd.waiting wk gk)) ∧
        matchLoop w g (evs.take (k + 1)) = some (LoopEnd.exited w1 g1 over) ∧
        g1.currPlay ≠ g1.oppPlay ∧ reqOpen w1 g1.currPlay ∧ reqOpen w1 g1.oppPlay ∧
        endGame w1 g1 over = some w2 ∧ playMatch w g evs = some (Outcome.ended w2 over) ∧
        reqClosed w2 g1.currPlay ∧ reqClosed w2 g1.oppPlay ∧
        flagIs w2 g1.currPlay false ∧ flagIs w2 g1.oppPlay false ∧ timerStopped w2 g1)) := by
  refine ⟨by decide, ?_, ?_⟩
  · intro ev hr
    obtain ⟨w1, g1, over, -, -, hstep, hover, -⟩ := loopStep_inv ev hs hP hI hr
    exact ⟨w1, g1, over, hstep, hover⟩
  · intro evs hsch
    rcases matchLoop_run hs hP hI hsch with
      ⟨w1, g1, -, -, h1, -⟩ | ⟨w1, g1, over, k, h1, hov, hk, hw, hex, hP1⟩
    · exact Or.inl ⟨w1, g1, h1, by simp [playMatch, h1]⟩
    · obtain ⟨w2, he, -, -, -, f1, f2, c1, c2, t1⟩ := endGame_spec over hP1
      exact Or.inr ⟨w1, g1, over, k, w2, h1, hov, hk, hw, hex, hP1.1, hP1.2.1, hP1.2.2.1, he,
        by simp [playMatch, h1, he], c1, c2, f1, f2, t1⟩

theorem one_terminal_reason_witness :
    MatchState busyWorld midGame [1, 2] 1 ∧ Playing busyWorld midGame ∧
    Inputs busyWorld midGame ∧
    Sched busyWorld midGame [Ev.opp, Ev.curr, Ev.curr, Ev.timer] ∧
    (playMatch busyWorld midGame [Ev.opp, Ev.curr, Ev.curr, Ev.timer]).map
      (fun r => match r with
        | Outcome.ended w2 reason => (sentSince busyWorld w2, reason)
        | _ => ([], 0)) =
      some ([(1, "button0"), (1, "button2"), (1, "win")], DC_C) ∧
    ((∃ w1 g1, matchLoop busyWorld midGame [Ev.opp, Ev.curr, Ev.curr, Ev.timer] =
        some (LoopEnd.waiting w1 g1) ∧
        playMatch busyWorld midGame [Ev.opp, Ev.curr, Ev.curr, Ev.timer] =
          some (Outcome.running w1 g1)) ∨
      (∃ w1 g1 over k w2,
        matchLoop busyWorld midGame [Ev.opp, Ev.curr, Ev.curr, Ev.timer] =
          some (LoopEnd.exited w1 g1 over) ∧
        (over = INGAME_C ∨ over = DC_C ∨ over = DC_O) ∧
        k < [Ev.opp, Ev.curr, Ev.curr, Ev.timer].length ∧
        (∃ wk gk, matchLoop busyWorld midGame ([Ev.opp, Ev.curr, Ev.curr, Ev.timer].take k) =
          some (LoopEnd.waiting wk gk)) ∧
        matchLoop busyWorld midGame ([Ev.opp, Ev.curr, Ev.curr, Ev.timer].take (k + 1)) =
          some (LoopEnd.exited w1 g1 over) ∧
        g1.currPlay ≠ g1.oppPlay ∧ reqOpen w1 g1.currPlay ∧ reqOpen w1 g1.oppPlay ∧
        endGame w1 g1 over = some w2 ∧
        playMatch busyWorld midGame [Ev.opp, Ev.curr, Ev.curr, Ev.timer] =
          some (Outcome.ended w2 over) ∧
        reqClosed w2 g1.currPlay ∧ reqClosed w2 g1.oppPlay ∧
        flagIs w2 g1.currPlay false ∧ flagIs w2 g1.oppPlay false ∧ timerStopped w2 g1)) :=
  ⟨busyState_ok, by decide, busyInputs_ok, busySched_ok, by decide,
    (one_terminal_reason busyWorld midGame [1, 2] 1 busyState_ok (by decide)
      busyInputs_ok).2.2 [Ev.opp, Ev.curr, Ev.curr, Ev.timer] busySched_ok⟩

/-- C16, evaluated where it fails: two calls of `write` on the same Writer.  Each call
locks its own copy of the mutex, so after the first call has entered `WriteMessage` the
second call still locks, and both sends are in progress at once. -/
theorem writes_overlap :
    gateRun freshGate [false, false, false] =
      some { mu := { locked := false }, inFlight := 1,
             first := Call.sending { locked := true }, second := Call.called } ∧
    gateRun freshGate [false, false, false, true, true, true] =
      some { mu := { locked := false }, inFlight := 2,
             first := Call.sending { locked := true },
             second := Call.sending { locked := true } } := by
  decide

/-- C17: a rejected press changes no match state.  For every well-formed match state and
every pressed value `b` in 0..2 the call of `update` returns, and if it returns
`INGAME_C` then the game value (list head, cursor, roles, timer) is unchanged and the
world differs only by the one message "button" + `b` written to the Player that was
`oppPlay` on entry: heap, timers, Players and queue are as before. -/
theorem rejected_press_changes_nothing (w : World) (g : Game) (vs : List Nat) (i b : Nat)
    (hs : MatchState w g vs i) (hb : b < 3) :
    ∃ w2 g2 r, update w g b = some (w2, g2, r) ∧
      (r = INGAME_C →
        g2 = g ∧ w2.heap = w.heap ∧ w2.timers = w.timers ∧ w2.players = w.players ∧
        w2.queue = w.queue ∧ deadline w2 g2 = deadline w g ∧ MatchState w2 g2 vs i ∧
        w2.out = w.out ++ [(g.oppPlay, buttonMsg b)]) := by
  obtain ⟨w2, g2, r, hu, -, -, -, -, -, hrej, -⟩ := update_step hs hb
  refine ⟨w2, g2, r, hu, fun hr => ?_⟩
  obtain ⟨rfl, rfl⟩ := hrej hr
  exact ⟨rfl, rfl, rfl, rfl, rfl, rfl, matchState_frame (w := w) rfl rfl rfl hs, rfl⟩

theorem rejected_press_changes_nothing_witness :
    MatchState midWorld midGame [1, 2] 1 ∧ 0 < 3 ∧
    update midWorld midGame 0 =
      some ({ midWorld with out := [(1, "button0")] }, midGame, INGAME_C) ∧
    ∃ w2 g2 r, update midWorld midGame 0 = some (w2, g2, r) ∧
      (r = INGAME_C →
        g2 = midGame ∧ w2.heap = midWorld.heap ∧ w2.timers = midWorld.timers ∧
        w2.players = midWorld.players ∧ w2.queue = midWorld.queue ∧
        deadline w2 g2 = deadline midWorld midGame ∧ MatchState w2 g2 [1, 2] 1 ∧
        w2.out = midWorld.out ++ [(midGame.oppPlay, buttonMsg 0)]) :=
  ⟨midState_ok, by decide, by decide,
    rejected_press_changes_nothing midWorld midGame [1, 2] 1 0 midState_ok (by decide)⟩

/-- C18: the button message round trip.  For each of the three button texts `m` the
reader decodes `m` to a value below 3, and the text `update` writes for a press of that
value, "button" followed by the character with code value + '0', is `m` itself: in any
well-formed match state the call of `update` on the decoded value writes exactly `m`
to `oppPlay`. -/
theorem button_round_trip (w : World) (g : Game) (vs : List Nat) (i : Nat) (m : String)
    (hs : MatchState w g vs i) (hm : m = "button0" ∨ m = "button1" ∨ m = "button2") :
    decodeButton m < 3 ∧ buttonMsg (decodeButton m) = m ∧
    ∃ w2 g2 r, update w g (decodeButton m) = some (w2, g2, r) ∧
      w2.out = w.out ++ [(g.oppPlay, m)] := by
  have h1 : decodeButton m < 3 := by
    rcases hm with rfl | rfl | rfl <;> decide
  have h2 : buttonMsg (decodeButton m) = m := by
    rcases hm with rfl | rfl | rfl <;> decide
  obtain ⟨w2, g2, r, hu, ho, -⟩ := update_step hs h1
  exact ⟨h1, h2, w2, g2, r, hu, by rw [ho, h2]⟩

theorem button_round_trip_witness :
    MatchState midWorld midGame [1, 2] 1 ∧
    ("button2" = "button0" ∨ "button2" = "button1" ∨ "button2" = "button2") ∧
    (decodeButton "button2" < 3 ∧ buttonMsg (decodeButton "button2") = "button2" ∧
    ∃ w2 g2 r, update midWorld midGame (decodeButton "button2") = some (w2, g2, r) ∧
      w2.out = midWorld.out ++ [(midGame.oppPlay, "button2")]) :=
  ⟨midState_ok, by decide,
    button_round_trip midWorld midGame [1, 2] 1 "button2" midState_ok (by decide)⟩

end Mesmerice
